import Mathlib

/-!
Verification development for the n-ohlcv ingestion/storage/resampling engine.

Shallow embedding notes:
* Rust `i64` timestamps are modelled as `Int`; `u64` scaled prices as `Nat`.
* `f64` price/volume values are modelled as `ℚ`.  Every numeric operation the
  modelled code performs on them (division by the price multiplier, `max`,
  `min`, addition) is executed on identical operand sequences wherever two
  runs are compared, so exact rationals are a faithful carrier.
* The `f64::MIN` / `f64::MAX` sentinels used by `convert_to_timeframe` are
  modelled by the exact rational values of those floats.
* Rust `as usize` casts of non-negative indices are modelled with `Int.toNat`.
-/

set_option maxHeartbeats 1000000
set_option maxRecDepth 10000
set_option linter.unusedVariables false

/-- `fetch.rs` `KLine`: one minute candle.  Field `open` of the Rust struct is
named `open_` here because `open` is a Lean keyword. -/
structure KLine where
  open_time : Int
  open_ : Nat
  high : Nat
  low : Nat
  close : Nat
  volume : ℚ
deriving DecidableEq, Repr

/-- `Bar`: a resampled OHLCV record (crate::Bar). -/
structure Bar where
  time : Int
  open_ : ℚ
  high : ℚ
  low : ℚ
  close : ℚ
  volume : ℚ
deriving DecidableEq, Repr

def dfltK : KLine := ⟨0, 0, 0, 0, 0, 0⟩

def dfltBar : Bar := ⟨0, 0, 0, 0, 0, 0⟩

instance : Inhabited KLine := ⟨dfltK⟩

instance : Inhabited Bar := ⟨dfltBar⟩

/-- `PRICE_MULTIPLIER = 2` (fetch.rs): scaled integer price to float,
`kline.open as f64 / 10f64.powi(2)`. -/
def pr (x : Nat) : ℚ := (x : ℚ) / 100

/-- Exact value of `f64::MIN`. -/
def f64Min : ℚ := -((2 ^ 53 - 1) * 2 ^ 971)

/-- Exact value of `f64::MAX`. -/
def f64Max : ℚ := (2 ^ 53 - 1) * 2 ^ 971

/-- The mutable accumulator of `Timeframe::convert_to_timeframe`
(`count`, `current_open_time`, `current_open`, `current_high`,
`current_low`, `current_volume`). -/
structure ConvSt where
  count : Nat
  open_time : Int
  open_ : ℚ
  high : ℚ
  low : ℚ
  volume : ℚ
deriving DecidableEq, Repr

/-- Initial accumulator values of `convert_to_timeframe`. -/
def initSt : ConvSt := ⟨0, 0, 0, f64Min, f64Max, 0⟩

/-- One loop iteration of `convert_to_timeframe` before the emission test:
if `count == 0` latch open time/open, then extend high/low/volume and
increment `count`. -/
def absorb (st : ConvSt) (k : KLine) : ConvSt :=
  let st1 := if st.count = 0 then
    { st with open_time := k.open_time, open_ := pr k.open_ } else st
  { st1 with
    high := max st1.high (pr k.high),
    low := min st1.low (pr k.low),
    volume := st1.volume + k.volume,
    count := st1.count + 1 }

/-- The post-emission reset of `convert_to_timeframe` (`count = 0`,
`current_high = f64::MIN`, `current_low = f64::MAX`, `current_volume = 0.0`;
open time/open are NOT reset, exactly as in the source). -/
def resetSt (st : ConvSt) : ConvSt :=
  { st with count := 0, high := f64Min, low := f64Max, volume := 0 }

/-- The `Bar` pushed by `convert_to_timeframe`; `k` is the candle of the
current iteration (`close: price_close`). -/
def mkBar (st : ConvSt) (k : KLine) : Bar :=
  ⟨st.open_time, st.open_, st.high, st.low, pr k.close, st.volume⟩

/-- The `for (index, kline)` loop of `convert_to_timeframe`.  The source's
`index == combined_klines.len() - 1` test is the `rest = []` test here.
`tf` is `timeframe_minutes as usize`. -/
def convertLoop (tf : Nat) (dolastbar : Bool) : List KLine → ConvSt → List Bar × ConvSt
  | [], st => ([], st)
  | k :: rest, st =>
    let st' := absorb st k
    if tf ≤ st'.count ∨ (dolastbar = true ∧ rest = []) then
      let out := convertLoop tf dolastbar rest (resetSt st')
      (mkBar st' k :: out.1, out.2)
    else
      convertLoop tf dolastbar rest st'

/-- `Timeframe::convert_to_timeframe` as a pure function.  The
`data_window.timeframe_remainder` read at entry is the `rem` argument, and
the value written back at exit is the second component of the result
(`combined_klines[combined_klines.len() - count..]` when `count > 0`). -/
def convert_to_timeframe (klines : List KLine) (tf : Nat) (dolastbar : Bool)
    (rem : List KLine) : List Bar × List KLine :=
  let combined := rem ++ klines
  let out := convertLoop tf dolastbar combined initSt
  (out.1,
   if 0 < out.2.count then combined.drop (combined.length - out.2.count) else [])

/-- Reference decomposition: the maximal list of complete `tf`-candle groups. -/
def fullGroups (tf : Nat) (l : List KLine) : List (List KLine) :=
  if h : 1 ≤ tf ∧ tf ≤ l.length then
    l.take tf :: fullGroups tf (l.drop tf)
  else []
termination_by l.length
decreasing_by simp only [List.length_drop]; omega

/-- Reference decomposition: the trailing incomplete group. -/
def tailChunk (tf : Nat) (l : List KLine) : List KLine :=
  l.drop (tf * (l.length / tf))

/-- The bar a group of candles aggregates to: open time/open of the first
candle, running extrema/volume sum, close of the last candle. -/
def barOf (c : List KLine) : Bar :=
  ⟨(c.head?.getD dfltK).open_time,
   pr (c.head?.getD dfltK).open_,
   c.foldl (fun a k => max a (pr k.high)) f64Min,
   c.foldl (fun a k => min a (pr k.low)) f64Max,
   pr (c.getLast?.getD dfltK).close,
   c.foldl (fun a k => a + k.volume) 0⟩

/-- Accumulator state after absorbing the candles of the current group. -/
def stOf (c : List KLine) : ConvSt := c.foldl absorb initSt

lemma foldl_absorb_count (c : List KLine) : ∀ st : ConvSt,
    (c.foldl absorb st).count = st.count + c.length := by
  induction c with
  | nil => intro st; simp
  | cons k rest ih =>
      intro st
      simp only [List.foldl_cons, ih, List.length_cons]
      have : (absorb st k).count = st.count + 1 := by
        by_cases h : st.count = 0 <;> simp [absorb, h]
      omega

lemma foldl_absorb_high (c : List KLine) : ∀ st : ConvSt,
    (c.foldl absorb st).high = c.foldl (fun a k => max a (pr k.high)) st.high := by
  induction c with
  | nil => intro st; simp
  | cons k rest ih =>
      intro st
      simp only [List.foldl_cons, ih, absorb]
      by_cases h : st.count = 0 <;> simp [h]

lemma foldl_absorb_low (c : List KLine) : ∀ st : ConvSt,
    (c.foldl absorb st).low = c.foldl (fun a k => min a (pr k.low)) st.low := by
  induction c with
  | nil => intro st; simp
  | cons k rest ih =>
      intro st
      simp only [List.foldl_cons, ih, absorb]
      by_cases h : st.count = 0 <;> simp [h]

lemma foldl_absorb_volume (c : List KLine) : ∀ st : ConvSt,
    (c.foldl absorb st).volume = c.foldl (fun a k => a + k.volume) st.volume := by
  induction c with
  | nil => intro st; simp
  | cons k rest ih =>
      intro st
      simp only [List.foldl_cons, ih, absorb]
      by_cases h : st.count = 0 <;> simp [h]

lemma foldl_absorb_open (c : List KLine) : ∀ st : ConvSt, st.count ≠ 0 →
    (c.foldl absorb st).open_time = st.open_time ∧
    (c.foldl absorb st).open_ = st.open_ := by
  induction c with
  | nil => intro st _; exact ⟨rfl, rfl⟩
  | cons k rest ih =>
      intro st h
      have habs : (absorb st k).count ≠ 0 := by simp [absorb]
      have hih := ih (absorb st k) habs
      have hfix : (absorb st k).open_time = st.open_time ∧
          (absorb st k).open_ = st.open_ := by simp [absorb, h]
      simp only [List.foldl_cons]
      exact ⟨hih.1.trans hfix.1, hih.2.trans hfix.2⟩

lemma stOf_fields (x : KLine) (xs : List KLine) :
    (stOf (x :: xs)).open_time = x.open_time ∧
    (stOf (x :: xs)).open_ = pr x.open_ ∧
    (stOf (x :: xs)).high = (x :: xs).foldl (fun a k => max a (pr k.high)) f64Min ∧
    (stOf (x :: xs)).low = (x :: xs).foldl (fun a k => min a (pr k.low)) f64Max ∧
    (stOf (x :: xs)).volume = (x :: xs).foldl (fun a k => a + k.volume) 0 := by
  have h1 : (absorb initSt x).count ≠ 0 := by simp [absorb]
  have hopen := foldl_absorb_open xs (absorb initSt x) h1
  constructor
  · simpa [stOf, absorb, initSt] using hopen.1
  constructor
  · simpa [stOf, absorb, initSt] using hopen.2
  refine ⟨?_, ?_, ?_⟩
  · simpa [stOf, absorb, initSt] using foldl_absorb_high xs (absorb initSt x)
  · simpa [stOf, absorb, initSt] using foldl_absorb_low xs (absorb initSt x)
  · simpa [stOf, absorb, initSt] using foldl_absorb_volume xs (absorb initSt x)

lemma stOf_count (c : List KLine) : (stOf c).count = c.length := by
  simpa [stOf, initSt] using foldl_absorb_count c initSt

lemma stOf_append_one (g : List KLine) (k : KLine) :
    stOf (g ++ [k]) = absorb (stOf g) k := by
  simp [stOf, List.foldl_append]

/-- After the post-emission reset, absorbing a candle behaves exactly as
from the initial state: the stale open fields are overwritten. -/
lemma absorb_reset (st : ConvSt) (k : KLine) :
    absorb (resetSt st) k = absorb initSt k := by
  simp [absorb, resetSt, initSt]

lemma convertLoop_reset (tf : Nat) (db : Bool) (L : List KLine) (st : ConvSt) :
    (convertLoop tf db L (resetSt st)).1 = (convertLoop tf db L initSt).1 ∧
    (convertLoop tf db L (resetSt st)).2.count = (convertLoop tf db L initSt).2.count := by
  cases L with
  | nil => exact ⟨rfl, by simp [convertLoop, resetSt, initSt]⟩
  | cons k rest => simp [convertLoop, absorb_reset]

lemma fullGroups_nil (tf : Nat) : fullGroups tf [] = [] := by
  rw [fullGroups, dif_neg]
  rintro ⟨h1, h2⟩
  simp at h2
  omega

lemma fullGroups_of_lt {tf : Nat} {l : List KLine} (h : l.length < tf) :
    fullGroups tf l = [] := by
  rw [fullGroups]
  rw [dif_neg]
  omega

lemma fullGroups_block {tf : Nat} (htf : 1 ≤ tf) {a : List KLine} (b : List KLine)
    (ha : a.length = tf) : fullGroups tf (a ++ b) = a :: fullGroups tf b := by
  rw [fullGroups, dif_pos (by simp [ha]; omega)]
  rw [List.take_left' ha, List.drop_left' ha]

lemma tailChunk_nil (tf : Nat) : tailChunk tf [] = [] := by
  simp [tailChunk]

lemma tailChunk_of_lt {tf : Nat} {l : List KLine} (h : l.length < tf) :
    tailChunk tf l = l := by
  unfold tailChunk
  rw [Nat.div_eq_of_lt h]
  simp

lemma tailChunk_block {tf : Nat} (htf : 1 ≤ tf) {a : List KLine} (b : List KLine)
    (ha : a.length = tf) : tailChunk tf (a ++ b) = tailChunk tf b := by
  unfold tailChunk
  have hlen : (a ++ b).length = tf + b.length := by simp [ha]
  rw [hlen]
  have hdiv : (tf + b.length) / tf = 1 + b.length / tf := by
    have := Nat.mul_add_div (by omega : 0 < tf) 1 b.length
    simpa using this
  rw [hdiv, Nat.mul_add, Nat.mul_one]
  have : (a ++ b).drop (tf + tf * (b.length / tf))
      = ((a ++ b).drop tf).drop (tf * (b.length / tf)) := by
    rw [List.drop_drop, Nat.add_comm]
  rw [this, List.drop_left' ha]

lemma tailChunk_length {tf : Nat} (htf : 1 ≤ tf) (l : List KLine) :
    (tailChunk tf l).length = l.length % tf := by
  unfold tailChunk
  rw [List.length_drop]
  have := Nat.mod_add_div l.length tf
  omega

/-- The emitted bar of a completed (or flushed) group equals `barOf` of the
group's candles. -/
lemma mkBar_eq_barOf (g : List KLine) (k : KLine) :
    mkBar (stOf (g ++ [k])) k = barOf (g ++ [k]) := by
  cases hgk : g ++ [k] with
  | nil => exact absurd hgk (by simp)
  | cons x xs =>
      have hfields := stOf_fields x xs
      have hlast : (g ++ [k]).getLast?.getD dfltK = k := by
        simp [List.getLast?_concat]
      rw [hgk] at hlast
      simp [mkBar, barOf, hgk, hfields.1, hfields.2.1, hfields.2.2.1,
        hfields.2.2.2.1, hfields.2.2.2.2, hlast]

lemma convertLoop_cons_pos {tf : Nat} {db : Bool} {k : KLine} {rest : List KLine}
    {st : ConvSt} (h : tf ≤ (absorb st k).count ∨ (db = true ∧ rest = [])) :
    convertLoop tf db (k :: rest) st
      = (mkBar (absorb st k) k :: (convertLoop tf db rest (resetSt (absorb st k))).1,
         (convertLoop tf db rest (resetSt (absorb st k))).2) := by
  simp only [convertLoop, if_pos h]

/-- Characterization of the `convert_to_timeframe` loop starting mid-group:
bars are exactly the completed groups (plus the flushed tail when
`dolastbar` fires), and the final `count` is the length of the unfinished
tail group. -/
theorem convertLoop_spec (tf : Nat) (htf : 1 ≤ tf) (db : Bool) :
    ∀ (L g : List KLine), g.length < tf →
      (convertLoop tf db L (stOf g)).1
        = (fullGroups tf (g ++ L)).map barOf
          ++ (if db = true ∧ L ≠ [] ∧ tailChunk tf (g ++ L) ≠ []
              then [barOf (tailChunk tf (g ++ L))] else [])
      ∧ (convertLoop tf db L (stOf g)).2.count
        = if db = true ∧ L ≠ [] then 0 else (g.length + L.length) % tf := by
  intro L
  induction L with
  | nil =>
    intro g hg
    constructor
    · have h1 : fullGroups tf g = [] := fullGroups_of_lt hg
      simp [convertLoop, h1]
    · simp [convertLoop, stOf_count, Nat.mod_eq_of_lt hg]
  | cons k rest ih =>
    intro g hg
    have hst : absorb (stOf g) k = stOf (g ++ [k]) := (stOf_append_one g k).symm
    have hcount : (absorb (stOf g) k).count = g.length + 1 := by
      rw [hst, stOf_count]; simp
    have hsplit : g ++ k :: rest = (g ++ [k]) ++ rest := by simp
    by_cases hA : tf ≤ (absorb (stOf g) k).count
    · -- the group completes at this candle
      have hlen : g.length + 1 = tf := by omega
      have hcond : tf ≤ (absorb (stOf g) k).count ∨ (db = true ∧ rest = []) := Or.inl hA
      have hfg : fullGroups tf ((g ++ [k]) ++ rest) = (g ++ [k]) :: fullGroups tf rest :=
        fullGroups_block htf rest (by simpa using hlen)
      have htc : tailChunk tf ((g ++ [k]) ++ rest) = tailChunk tf rest :=
        tailChunk_block htf rest (by simpa using hlen)
      have hreset := convertLoop_reset tf db rest (absorb (stOf g) k)
      have hinit : (initSt : ConvSt) = stOf [] := rfl
      have hih := ih [] (by simp only [List.length_nil]; omega)
      rw [hinit] at hreset
      have hbar : mkBar (absorb (stOf g) k) k = barOf (g ++ [k]) := by
        rw [hst]; exact mkBar_eq_barOf g k
      have hiff : (db = true ∧ rest ≠ [] ∧ tailChunk tf rest ≠ [])
          ↔ (db = true ∧ k :: rest ≠ [] ∧ tailChunk tf rest ≠ []) := by
        constructor
        · rintro ⟨h1, h2, h3⟩; exact ⟨h1, by simp, h3⟩
        · rintro ⟨h1, h2, h3⟩
          refine ⟨h1, ?_, h3⟩
          intro hr
          exact h3 (by simp [hr, tailChunk_nil])
      constructor
      · simp only [convertLoop, if_pos hcond]
        rw [hsplit, hfg, htc]
        simp only [List.map_cons, List.cons_append]
        rw [hbar, hreset.1, hih.1]
        simp only [List.nil_append]
        rw [if_congr hiff rfl rfl]
      · simp only [convertLoop, if_pos hcond]
        rw [hreset.2, hih.2]
        by_cases hdb : db = true
        · by_cases hrest : rest = []
          · simp [hdb, hrest]
          · simp [hdb, hrest]
        · have harith : (tf + rest.length) % tf = rest.length % tf := Nat.add_mod_left tf _
          simp only [Bool.not_eq_true] at hdb
          subst hdb
          simp only [List.length_nil, Nat.zero_add, List.length_cons]
          have heq : g.length + (rest.length + 1) = tf + rest.length := by omega
          rw [heq, harith]
          simp
    · by_cases hB : db = true ∧ rest = []
      · -- forced flush on the last input candle
        obtain ⟨hdb, hrest⟩ := hB
        subst hrest
        have hcond : tf ≤ (absorb (stOf g) k).count ∨
            (db = true ∧ ([] : List KLine) = []) := Or.inr ⟨hdb, rfl⟩
        have hlt : (g ++ [k]).length < tf := by
          simp only [List.length_append, List.length_singleton]; omega
        have hfg : fullGroups tf (g ++ [k]) = [] := fullGroups_of_lt hlt
        have htc : tailChunk tf (g ++ [k]) = g ++ [k] := tailChunk_of_lt hlt
        have hbar : mkBar (absorb (stOf g) k) k = barOf (g ++ [k]) := by
          rw [hst]; exact mkBar_eq_barOf g k
        have hstep := @convertLoop_cons_pos tf db k [] (stOf g) hcond
        constructor
        · rw [hstep]
          rw [hfg, htc]
          have hne : g ++ [k] ≠ [] := by simp
          rw [if_pos ⟨hdb, List.cons_ne_nil k [], hne⟩]
          simp [hbar, convertLoop]
        · rw [hstep]
          simp [convertLoop, resetSt, hdb]
      · -- no emission: continue mid-group
        have hcond : ¬(tf ≤ (absorb (stOf g) k).count ∨ (db = true ∧ rest = [])) := by
          push_neg
          exact ⟨by omega, fun h1 h2 => hB ⟨h1, h2⟩⟩
        have hglen : (g ++ [k]).length < tf := by simp; omega
        have hih := ih (g ++ [k]) hglen
        have hiff : (db = true ∧ rest ≠ [] ∧ tailChunk tf ((g ++ [k]) ++ rest) ≠ [])
            ↔ (db = true ∧ k :: rest ≠ [] ∧ tailChunk tf ((g ++ [k]) ++ rest) ≠ []) := by
          constructor
          · rintro ⟨h1, h2, h3⟩; exact ⟨h1, by simp, h3⟩
          · rintro ⟨h1, h2, h3⟩
            refine ⟨h1, ?_, h3⟩
            intro hr
            exact hB ⟨h1, hr⟩
        constructor
        · simp only [convertLoop, if_neg hcond]
          rw [hst, hsplit]
          rw [hih.1]
          rw [if_congr hiff rfl rfl]
        · simp only [convertLoop, if_neg hcond]
          rw [hst, hih.2]
          by_cases hdb : db = true
          · have hrest : rest ≠ [] := fun hr => hB ⟨hdb, hr⟩
            simp [hdb, hrest]
          · rw [if_neg (show ¬(db = true ∧ rest ≠ []) from fun h => hdb h.1),
               if_neg (show ¬(db = true ∧ k :: rest ≠ []) from fun h => hdb h.1)]
            have harg : (g ++ [k]).length + rest.length = g.length + (k :: rest).length := by
              simp only [List.length_append, List.length_cons, List.length_nil]
              omega
            rw [harg]

lemma tailChunk_remainder {tf : Nat} (htf : 1 ≤ tf) (l : List KLine) :
    (if 0 < l.length % tf then l.drop (l.length - l.length % tf) else [])
      = tailChunk tf l := by
  have hmd := Nat.mod_add_div l.length tf
  by_cases h : l.length % tf = 0
  · rw [if_neg (by omega)]
    unfold tailChunk
    have : tf * (l.length / tf) = l.length := by omega
    rw [this, List.drop_length]
  · rw [if_pos (by omega)]
    unfold tailChunk
    have : l.length - l.length % tf = tf * (l.length / tf) := by omega
    rw [this]

/-- `convert_to_timeframe` without `force_flush`: bars are the complete
groups of `remainder ++ klines`, the new remainder is the trailing
incomplete group. -/
theorem convert_false_eq (tf : Nat) (htf : 1 ≤ tf) (klines rem : List KLine) :
    convert_to_timeframe klines tf false rem
      = ((fullGroups tf (rem ++ klines)).map barOf, tailChunk tf (rem ++ klines)) := by
  have hspec := convertLoop_spec tf htf false (rem ++ klines) []
    (by simp only [List.length_nil]; omega)
  have hinit : stOf [] = initSt := rfl
  rw [hinit] at hspec
  obtain ⟨hbars, hcount⟩ := hspec
  have hcount' : (convertLoop tf false (rem ++ klines) initSt).2.count
      = (rem ++ klines).length % tf := by
    rw [hcount]; simp
  simp only [convert_to_timeframe, Prod.mk.injEq]
  constructor
  · rw [hbars]; simp
  · rw [hcount']
    exact tailChunk_remainder htf (rem ++ klines)

/-- `convert_to_timeframe` with `force_flush`: bars are the complete groups
followed by the flushed partial tail (when non-empty); the remainder is
empty. -/
theorem convert_true_eq (tf : Nat) (htf : 1 ≤ tf) (klines rem : List KLine) :
    convert_to_timeframe klines tf true rem
      = ((fullGroups tf (rem ++ klines)).map barOf
          ++ (if tailChunk tf (rem ++ klines) ≠ []
              then [barOf (tailChunk tf (rem ++ klines))] else []), []) := by
  have hspec := convertLoop_spec tf htf true (rem ++ klines) []
    (by simp only [List.length_nil]; omega)
  have hinit : stOf [] = initSt := rfl
  rw [hinit] at hspec
  obtain ⟨hbars, hcount⟩ := hspec
  simp only [convert_to_timeframe, Prod.mk.injEq]
  by_cases htc : tailChunk tf (rem ++ klines) = []
  · by_cases hC : rem ++ klines = []
    · constructor
      · rw [hbars]; simp [hC, fullGroups_nil, tailChunk_nil]
      · rw [hcount]; simp [hC]
    · constructor
      · rw [hbars]; simp [hC, htc]
      · rw [hcount]; simp [hC]
  · have hC : rem ++ klines ≠ [] := by
      intro h
      exact htc (by simp [h, tailChunk_nil])
    constructor
    · rw [hbars]; simp [hC, htc]
    · rw [hcount]; simp [hC]

/-- Splitting off a `tf ∣ length` prefix commutes with `fullGroups`. -/
lemma fullGroups_append_dvd {tf : Nat} (htf : 1 ≤ tf) :
    ∀ (m : Nat) (a b : List KLine), a.length = tf * m →
      fullGroups tf (a ++ b) = fullGroups tf a ++ fullGroups tf b := by
  intro m
  induction m with
  | zero =>
    intro a b ha
    have : a = [] := List.length_eq_zero.mp (by omega)
    simp [this, fullGroups_nil]
  | succ m ih =>
    intro a b ha
    have htfa : tf ≤ a.length := by
      have : tf * m + tf ≤ tf * (m + 1) := by ring_nf; omega
      omega
    have hcond1 : 1 ≤ tf ∧ tf ≤ (a ++ b).length := by
      constructor
      · exact htf
      · rw [List.length_append]; omega
    have hcond2 : 1 ≤ tf ∧ tf ≤ a.length := ⟨htf, htfa⟩
    rw [fullGroups, dif_pos hcond1]
    conv_rhs => rw [fullGroups, dif_pos hcond2]
    have htake : (a ++ b).take tf = a.take tf := by
      rw [List.take_append_eq_append_take]
      have : tf - a.length = 0 := by omega
      rw [this]
      simp
    have hdrop : (a ++ b).drop tf = a.drop tf ++ b := by
      rw [List.drop_append_eq_append_drop]
      have : tf - a.length = 0 := by omega
      rw [this]
      simp
    have hlen : (a.drop tf).length = tf * m := by
      rw [List.length_drop]
      have : tf * (m + 1) = tf * m + tf := by ring
      omega
    rw [htake, hdrop, ih (a.drop tf) b hlen]
    simp

/-- Splitting off a `tf ∣ length` prefix leaves `tailChunk` unchanged. -/
lemma tailChunk_append_dvd {tf : Nat} (htf : 1 ≤ tf)
    (m : Nat) (a b : List KLine) (ha : a.length = tf * m) :
    tailChunk tf (a ++ b) = tailChunk tf b := by
  unfold tailChunk
  have hlen : (a ++ b).length = tf * m + b.length := by simp [ha]
  rw [hlen]
  have hdiv : (tf * m + b.length) / tf = m + b.length / tf :=
    Nat.mul_add_div (by omega) m b.length
  rw [hdiv, Nat.mul_add]
  have hsplit : tf * m + tf * (b.length / tf)
      = a.length + tf * (b.length / tf) := by omega
  rw [hsplit]
  rw [← List.drop_drop]
  rw [List.drop_left]

lemma tailChunk_length_lt {tf : Nat} (htf : 1 ≤ tf) (l : List KLine) :
    (tailChunk tf l).length < tf := by
  rw [tailChunk_length htf]
  exact Nat.mod_lt _ (by omega)

lemma take_fullPart_append (tf : Nat) (l : List KLine) :
    l.take (tf * (l.length / tf)) ++ tailChunk tf l = l := by
  unfold tailChunk
  exact List.take_append_drop _ l

lemma take_fullPart_length {tf : Nat} (htf : 1 ≤ tf) (l : List KLine) :
    (l.take (tf * (l.length / tf))).length = tf * (l.length / tf) := by
  rw [List.length_take]
  refine min_eq_left ?_
  calc tf * (l.length / tf) = l.length / tf * tf := by ring
    _ ≤ l.length := Nat.div_mul_le_self _ _

/-- C1: resampling is associative across chunk boundaries: converting
`xs ++ ys` in one call (with `force_flush = ff`) equals converting `xs`
first (no flush), then `ys` seeded with the remainder of the first call,
concatenating the bars; the final remainders agree as well. -/
theorem c1_resample_assoc (tf : Nat) (htf : 1 ≤ tf) (xs ys r0 : List KLine) (ff : Bool) :
    (convert_to_timeframe (xs ++ ys) tf ff r0).1
      = (convert_to_timeframe xs tf false r0).1
        ++ (convert_to_timeframe ys tf ff ((convert_to_timeframe xs tf false r0).2)).1
    ∧ (convert_to_timeframe (xs ++ ys) tf ff r0).2
      = (convert_to_timeframe ys tf ff ((convert_to_timeframe xs tf false r0).2)).2 := by
  have h1 := convert_false_eq tf htf xs r0
  rw [h1]
  set C := r0 ++ xs with hC
  set r1 := tailChunk tf C with hr1
  set F := C.take (tf * (C.length / tf)) with hF
  have hFlen : F.length = tf * (C.length / tf) := take_fullPart_length htf C
  have hCsplit : F ++ r1 = C := take_fullPart_append tf C
  have hr1lt : r1.length < tf := tailChunk_length_lt htf C
  have hA : r0 ++ (xs ++ ys) = F ++ (r1 ++ ys) := by
    rw [← List.append_assoc, ← hC, ← hCsplit, List.append_assoc]
  have hfgA : fullGroups tf (F ++ (r1 ++ ys))
      = fullGroups tf F ++ fullGroups tf (r1 ++ ys) :=
    fullGroups_append_dvd htf (C.length / tf) F (r1 ++ ys) hFlen
  have htcA : tailChunk tf (F ++ (r1 ++ ys)) = tailChunk tf (r1 ++ ys) :=
    tailChunk_append_dvd htf (C.length / tf) F (r1 ++ ys) hFlen
  have hfgC : fullGroups tf C = fullGroups tf F := by
    conv_lhs => rw [← hCsplit]
    rw [fullGroups_append_dvd htf (C.length / tf) F r1 hFlen,
      fullGroups_of_lt hr1lt, List.append_nil]
  cases ff with
  | false =>
    rw [convert_false_eq tf htf (xs ++ ys) r0, convert_false_eq tf htf ys r1]
    rw [hA, hfgA, htcA, hfgC]
    simp
  | true =>
    rw [convert_true_eq tf htf (xs ++ ys) r0, convert_true_eq tf htf ys r1]
    rw [hA, hfgA, htcA, hfgC]
    simp

/-- Concrete instantiation witnessing `c1_resample_assoc`. -/
theorem c1_resample_assoc_witness :
    (1 ≤ 2) ∧
    ((convert_to_timeframe ([⟨0, 100, 200, 50, 150, 1⟩] ++ [⟨60000, 150, 300, 100, 250, 2⟩, ⟨120000, 250, 260, 240, 255, 3⟩]) 2 true []).1
      = (convert_to_timeframe [⟨0, 100, 200, 50, 150, 1⟩] 2 false []).1
        ++ (convert_to_timeframe [⟨60000, 150, 300, 100, 250, 2⟩, ⟨120000, 250, 260, 240, 255, 3⟩] 2 true
              ((convert_to_timeframe [⟨0, 100, 200, 50, 150, 1⟩] 2 false []).2)).1
    ∧ (convert_to_timeframe ([⟨0, 100, 200, 50, 150, 1⟩] ++ [⟨60000, 150, 300, 100, 250, 2⟩, ⟨120000, 250, 260, 240, 255, 3⟩]) 2 true []).2
      = (convert_to_timeframe [⟨60000, 150, 300, 100, 250, 2⟩, ⟨120000, 250, 260, 240, 255, 3⟩] 2 true
            ((convert_to_timeframe [⟨0, 100, 200, 50, 150, 1⟩] 2 false []).2)).2) :=
  ⟨by omega,
   c1_resample_assoc 2 (by omega) [⟨0, 100, 200, 50, 150, 1⟩]
     [⟨60000, 150, 300, 100, 250, 2⟩, ⟨120000, 250, 260, 240, 255, 3⟩] [] true⟩

lemma flatten_fullGroups_tailChunk {tf : Nat} (htf : 1 ≤ tf) :
    ∀ (n : Nat) (l : List KLine), l.length ≤ n →
      (fullGroups tf l).flatten ++ tailChunk tf l = l := by
  intro n
  induction n with
  | zero =>
    intro l hl
    have : l = [] := List.length_eq_zero.mp (by omega)
    subst this
    simp [fullGroups_nil, tailChunk_nil]
  | succ n ih =>
    intro l hl
    by_cases h : tf ≤ l.length
    · rw [fullGroups, dif_pos ⟨htf, h⟩]
      have htlen : (l.take tf).length = tf := by
        rw [List.length_take]; omega
      have htc : tailChunk tf l = tailChunk tf (l.drop tf) := by
        conv_lhs => rw [← List.take_append_drop tf l]
        exact tailChunk_block htf (l.drop tf) htlen
      have hdlen : (l.drop tf).length ≤ n := by
        rw [List.length_drop]; omega
      rw [htc]
      simp only [List.flatten_cons, List.append_assoc]
      rw [ih (l.drop tf) hdlen]
      exact List.take_append_drop tf l
    · rw [fullGroups_of_lt (by omega)]
      rw [tailChunk_of_lt (by omega)]
      simp

/-- C5: after every call the remainder is shorter than the timeframe,
a flushed call leaves an empty remainder, and without flush the emitted
bars together with the remainder partition the input exactly (the
remainder is the trailing un-emitted candles). -/
theorem c5_remainder_invariant (tf : Nat) (htf : 1 ≤ tf)
    (klines rem : List KLine) (ff : Bool) :
    (convert_to_timeframe klines tf ff rem).2.length < tf
    ∧ (ff = true → (convert_to_timeframe klines tf ff rem).2 = [])
    ∧ (ff = false →
        (convert_to_timeframe klines tf ff rem).1
          = (fullGroups tf (rem ++ klines)).map barOf
        ∧ (fullGroups tf (rem ++ klines)).flatten
            ++ (convert_to_timeframe klines tf ff rem).2 = rem ++ klines) := by
  cases ff with
  | true =>
    rw [convert_true_eq tf htf klines rem]
    exact ⟨by simpa using htf, fun _ => rfl, fun h => nomatch h⟩
  | false =>
    rw [convert_false_eq tf htf klines rem]
    refine ⟨tailChunk_length_lt htf _, ?_, ?_⟩
    · intro h
      exact nomatch h
    · intro _
      exact ⟨rfl, flatten_fullGroups_tailChunk htf (rem ++ klines).length _ le_rfl⟩

/-- Concrete instantiation witnessing `c5_remainder_invariant`. -/
theorem c5_remainder_invariant_witness :
    (1 ≤ 2) ∧
    ((convert_to_timeframe [⟨0, 100, 200, 50, 150, 1⟩, ⟨60000, 150, 300, 100, 250, 2⟩, ⟨120000, 250, 260, 240, 255, 3⟩] 2 false []).2.length < 2
    ∧ ((false : Bool) = true → (convert_to_timeframe [⟨0, 100, 200, 50, 150, 1⟩, ⟨60000, 150, 300, 100, 250, 2⟩, ⟨120000, 250, 260, 240, 255, 3⟩] 2 false []).2 = [])
    ∧ ((false : Bool) = false →
        (convert_to_timeframe [⟨0, 100, 200, 50, 150, 1⟩, ⟨60000, 150, 300, 100, 250, 2⟩, ⟨120000, 250, 260, 240, 255, 3⟩] 2 false []).1
          = (fullGroups 2 ([] ++ [⟨0, 100, 200, 50, 150, 1⟩, ⟨60000, 150, 300, 100, 250, 2⟩, ⟨120000, 250, 260, 240, 255, 3⟩])).map barOf
        ∧ (fullGroups 2 ([] ++ [⟨0, 100, 200, 50, 150, 1⟩, ⟨60000, 150, 300, 100, 250, 2⟩, ⟨120000, 250, 260, 240, 255, 3⟩])).flatten
            ++ (convert_to_timeframe [⟨0, 100, 200, 50, 150, 1⟩, ⟨60000, 150, 300, 100, 250, 2⟩, ⟨120000, 250, 260, 240, 255, 3⟩] 2 false []).2
            = [] ++ [⟨0, 100, 200, 50, 150, 1⟩, ⟨60000, 150, 300, 100, 250, 2⟩, ⟨120000, 250, 260, 240, 255, 3⟩])) :=
  ⟨by omega,
   c5_remainder_invariant 2 (by omega)
     [⟨0, 100, 200, 50, 150, 1⟩, ⟨60000, 150, 300, 100, 250, 2⟩, ⟨120000, 250, 260, 240, 255, 3⟩] [] false⟩

/-- `DataWindow` (datawindow.rs).  The two `f32` rendering fields
(`volume_height_ratio`, `pixel_offset`) play no role in any claim and are
omitted.  Prices/volumes are `ℚ`, see the header. -/
structure DataWindow where
  bars : List Bar
  visible_range : Int × Int
  price : ℚ × ℚ
  min_indexes : Option (List Nat)
  max_indexes : Option (List Nat)
  recent_data : List KLine
  timeframe_remainder : List KLine
  cached_visible_range : Option (Int × Int)
  cached_max_volume : Option ℚ
deriving DecidableEq, Repr

/-- The `DataWindow` literal built in `InteractiveGui::new`. -/
def dwInit : DataWindow :=
  { bars := []
    visible_range := (0, 0)
    price := (0, 0)
    min_indexes := none
    max_indexes := none
    recent_data := []
    timeframe_remainder := []
    cached_visible_range := none
    cached_max_volume := none }

/-- The sled store (db.rs) restricted to what the claims touch: block
entries keyed `"{symbol}_{timestamp}"` (modelled as the key pair) and the
`"last_{symbol}"` pointer.  Blocks are stored as candle lists; the
serialize/compress step is a bijection on values and is not modelled. -/
structure Db where
  blocks : String → Int → Option (List KLine)
  last : String → Option Int

def emptyDb : Db := ⟨fun _ _ => none, fun _ => none⟩

/-- The store state after the two-write transaction of
`Database::insert_block` commits. -/
def dbAfterInsert (db : Db) (s : String) (t : Int) (data : List KLine) : Db :=
  { blocks := fun s' t' => if s' = s ∧ t' = t then some data else db.blocks s' t',
    last := fun s' => if s' = s then some t else db.last s' }

/-- `Database::insert_block`: one sled transaction writing the block entry
and the `last_{symbol}` pointer.  `txnFail` is the environment oracle for a
sled failure: the transaction aborts with no partial visibility. -/
def insert_block (db : Db) (s : String) (t : Int) (data : List KLine)
    (txnFail : Bool) : Except String Db :=
  if txnFail then .error "transaction aborted" else .ok (dbAfterInsert db s t data)

/-- `Database::get_last_timestamp`: the stored pointer, `0` when unset. -/
def get_last_timestamp (db : Db) (s : String) : Int :=
  (db.last s).getD 0

/-- `Timeframe::get_dbtimestamp`:
`timestamp_ms - timestamp_ms % (BLOCK_SIZE as i64 * 60_000)`; Rust `%` on
`i64` is truncating remainder, i.e. `Int.tmod`. -/
def get_dbtimestamp (t : Int) : Int := t - Int.tmod t 60000000

/-- First adjacent pair of candles whose open-time difference is not
exactly 60000 ms — the scan of the `for i in 1..data.len()` loop in
`Timeframe::process_data_chunk`. -/
def findGap : List KLine → Option (KLine × KLine)
  | a :: b :: rest =>
      if b.open_time - a.open_time ≠ 60000 then some (a, b)
      else findGap (b :: rest)
  | _ => none

/-- The error the ingestion path can return.  `gap` carries the fields of
the formatted message `"Consistency check failed for {symbol}: gap between
{prev} and {next} is {diff}ms (expected 60000ms)"`. -/
inductive IngestError where
  | gap (symbol : String) (prevOpen nextOpen diff : Int)
deriving DecidableEq, Repr

/-- `Timeframe::process_data_chunk`.  Batches shorter than 1000 candles go
to `dw.recent_data` unchecked; otherwise the contiguity scan runs, and on
success `db.insert_block(symbol, data[0].open_time, &data)` is invoked with
its `Result` DISCARDED (the source has no `?` on that call), so the
function returns `Ok` whether or not the transaction committed. -/
def process_data_chunk (s : String) (data : List KLine) (db : Db)
    (dw : DataWindow) (txnFail : Bool) : Except IngestError (Db × DataWindow) :=
  if data.length < 1000 then
    .ok (db, { dw with recent_data := data })
  else
    match findGap data with
    | some (a, b) =>
        .error (.gap s a.open_time b.open_time (b.open_time - a.open_time))
    | none =>
        match insert_block db s ((data.head?.getD dfltK).open_time) data txnFail with
        | .ok db' => .ok (db', dw)
        | .error _ => .ok (db, dw)

/-- The `while current_time < end_time` loop of `Timeframe::sync_data`.
`fetch cur (cur + 60000000)` models
`fetch_klines(&client, symbol, "1m", 1000, Some(cur), Some(cur + 60_000_000))`;
`txnFail cur` is the sled oracle for the chunk fetched at `cur`; `acc`
accumulates the start times of the requests actually issued (the trace).
The `thread::sleep` pause is timing-only and not modelled. -/
def syncLoop (fetch : Int → Int → List KLine) (txnFail : Int → Bool) (s : String)
    (endT : Int) (db : Db) (dw : DataWindow) (acc : List Int) (cur : Int) :
    Except IngestError (Db × DataWindow × List Int) :=
  if h : cur < endT then
    match process_data_chunk s (fetch cur (cur + 60000000)) db dw (txnFail cur) with
    | .error e => .error e
    | .ok (db', dw') =>
        syncLoop fetch txnFail s endT db' dw' (acc ++ [cur]) (cur + 60000000)
  else .ok (db, dw, acc)
termination_by (endT - cur).toNat
decreasing_by omega

/-- `Timeframe::sync_data`: derive the first request time from the store's
last-timestamp pointer (`last + 60_000_000` when set, block-aligned floor
of `start_time` otherwise), then run the fetch loop to `end_time`. -/
def sync_data (fetch : Int → Int → List KLine) (txnFail : Int → Bool) (db : Db)
    (s : String) (startT endT : Int) (dw : DataWindow) :
    Except IngestError (Db × DataWindow × List Int) :=
  let last := get_last_timestamp db s
  let cur := if last = 0 then get_dbtimestamp startT else last + 60000000
  syncLoop fetch txnFail s endT db dw [] cur

/-- The request start times the sync loop issues from `cur` to `endT`. -/
def reqTimes (endT : Int) (cur : Int) : List Int :=
  if h : cur < endT then cur :: reqTimes endT (cur + 60000000) else []
termination_by (endT - cur).toNat
decreasing_by omega

/-- Trace projection of a sync result. -/
def getTrace (r : Except IngestError (Db × DataWindow × List Int)) :
    Option (List Int) :=
  match r with
  | .ok x => some x.2.2
  | .error _ => none

lemma syncLoop_stop {fetch txnFail s endT db dw acc cur}
    (h : ¬ cur < endT) :
    syncLoop fetch txnFail s endT db dw acc cur = .ok (db, dw, acc) := by
  rw [syncLoop, dif_neg h]

lemma syncLoop_step {fetch txnFail s endT db dw acc cur}
    (h : cur < endT) :
    syncLoop fetch txnFail s endT db dw acc cur
      = match process_data_chunk s (fetch cur (cur + 60000000)) db dw (txnFail cur) with
        | .error e => .error e
        | .ok (db', dw') =>
            syncLoop fetch txnFail s endT db' dw' (acc ++ [cur]) (cur + 60000000) := by
  rw [syncLoop, dif_pos h]

lemma reqTimes_stop {endT cur : Int} (h : ¬ cur < endT) : reqTimes endT cur = [] := by
  rw [reqTimes, dif_neg h]

lemma reqTimes_step {endT cur : Int} (h : cur < endT) :
    reqTimes endT cur = cur :: reqTimes endT (cur + 60000000) := by
  rw [reqTimes, dif_pos h]

/-- A block-aligned run of `n` contiguous minute candles starting at `t`. -/
def mkC (t : Int) (n : Nat) : List KLine :=
  (List.range n).map (fun (i : Nat) => ⟨t + 60000 * (i : Int), 1, 1, 1, 1, 1⟩)

lemma mkC_length (t : Int) (n : Nat) : (mkC t n).length = n := by
  simp [mkC]

lemma mkC_succ (t : Int) (n : Nat) :
    mkC t (n + 1) = ⟨t, 1, 1, 1, 1, 1⟩ :: mkC (t + 60000) n := by
  unfold mkC
  rw [List.range_succ_eq_map]
  simp only [List.map_cons, List.map_map]
  congr 1
  · simp
  · refine List.map_congr_left ?_
    intro a _
    simp only [Function.comp_apply]
    congr 1
    push_cast
    ring

lemma mkC_zero (t : Int) : mkC t 0 = [] := by simp [mkC]

lemma findGap_mkC : ∀ (n : Nat) (t : Int), findGap (mkC t n) = none := by
  intro n
  induction n with
  | zero => intro t; rw [mkC_zero]; rfl
  | succ n ih =>
    intro t
    cases n with
    | zero =>
      rw [mkC_succ, mkC_zero]
      rfl
    | succ m =>
      rw [mkC_succ t (m + 1), mkC_succ (t + 60000) m]
      simp only [findGap]
      rw [if_neg (by omega)]
      rw [← mkC_succ (t + 60000) m]
      exact ih (t + 60000)

lemma process_small {s : String} {data : List KLine} {db : Db} {dw : DataWindow}
    {txnFail : Bool} (h : data.length < 1000) :
    process_data_chunk s data db dw txnFail
      = .ok (db, { dw with recent_data := data }) := by
  unfold process_data_chunk
  rw [if_pos h]

lemma process_full {s : String} {data : List KLine} {db : Db} {dw : DataWindow}
    (hlen : ¬ data.length < 1000) (hgap : findGap data = none) :
    process_data_chunk s data db dw false
      = .ok (dbAfterInsert db s ((data.head?.getD dfltK).open_time) data, dw) := by
  unfold process_data_chunk
  rw [if_neg hlen, hgap]
  simp [insert_block]

lemma process_full_fail {s : String} {data : List KLine} {db : Db} {dw : DataWindow}
    (hlen : ¬ data.length < 1000) (hgap : findGap data = none) :
    process_data_chunk s data db dw true = .ok (db, dw) := by
  unfold process_data_chunk
  rw [if_neg hlen, hgap]
  simp [insert_block]

lemma process_gap {s : String} {data : List KLine} {db : Db} {dw : DataWindow}
    {txnFail : Bool} {a b : KLine}
    (hlen : ¬ data.length < 1000) (hgap : findGap data = some (a, b)) :
    process_data_chunk s data db dw txnFail
      = .error (.gap s a.open_time b.open_time (b.open_time - a.open_time)) := by
  unfold process_data_chunk
  rw [if_neg hlen, hgap]

/-- C2 counterexample: a 2-candle batch with a 120000 ms gap is NOT aborted;
it is accepted into the recent buffer without any contiguity check, because
`process_data_chunk` only checks batches of at least 1000 candles. -/
theorem c2_short_batch_unchecked :
    process_data_chunk "BTCUSDT" [⟨0, 1, 1, 1, 1, 1⟩, ⟨120000, 1, 1, 1, 1, 1⟩]
        emptyDb dwInit false
      = .ok (emptyDb,
          { dwInit with recent_data := [⟨0, 1, 1, 1, 1, 1⟩, ⟨120000, 1, 1, 1, 1, 1⟩] })
    ∧ ((120000 : Int) - 0 ≠ 60000) :=
  ⟨rfl, by decide⟩

/-- C2 (amended): only batches of at least 1000 candles are
contiguity-checked.  In such a batch the first non-60000 ms adjacent pair
aborts ingestion with an error naming the symbol and the gap location and
nothing is committed (the store and window are untouched); a batch shorter
than 1000 candles bypasses the check and is stored in the in-memory recent
buffer; every batch whose adjacent pairs all differ by exactly 60000 ms is
accepted. -/
theorem c2_contiguity_amended (s : String) (data : List KLine) (db : Db)
    (dw : DataWindow) (txnFail : Bool) :
    (data.length < 1000 →
      process_data_chunk s data db dw txnFail
        = .ok (db, { dw with recent_data := data }))
    ∧ (¬ data.length < 1000 → ∀ a b, findGap data = some (a, b) →
        process_data_chunk s data db dw txnFail
          = .error (.gap s a.open_time b.open_time (b.open_time - a.open_time)))
    ∧ (¬ data.length < 1000 → findGap data = none →
        ∃ db', process_data_chunk s data db dw txnFail = .ok (db', dw)) := by
  refine ⟨fun h => process_small h, ?_, ?_⟩
  · intro hlen a b hgap
    exact process_gap hlen hgap
  · intro hlen hgap
    cases txnFail with
    | true => exact ⟨db, process_full_fail hlen hgap⟩
    | false => exact ⟨_, process_full hlen hgap⟩

/-- Concrete instantiation witnessing `c2_contiguity_amended`: a short batch
is buffered, a full-size batch with a leading gap is rejected with the
symbol and both timestamps in the error. -/
theorem c2_contiguity_amended_witness :
    (process_data_chunk "X" [⟨0, 1, 1, 1, 1, 1⟩] emptyDb dwInit false
      = .ok (emptyDb, { dwInit with recent_data := [⟨0, 1, 1, 1, 1, 1⟩] }))
    ∧ (process_data_chunk "X" (⟨0, 1, 1, 1, 1, 1⟩ :: mkC 120000 999) emptyDb dwInit false
      = .error (.gap "X" 0 120000 120000)) := by
  constructor
  · exact (c2_contiguity_amended "X" [⟨0, 1, 1, 1, 1, 1⟩] emptyDb dwInit false).1
      (by decide)
  · have hlen : ¬ (⟨0, 1, 1, 1, 1, 1⟩ :: mkC 120000 999 : List KLine).length < 1000 := by
      simp only [List.length_cons, mkC_length]
      omega
    have hgap : findGap (⟨0, 1, 1, 1, 1, 1⟩ :: mkC 120000 999)
        = some (⟨0, 1, 1, 1, 1, 1⟩, ⟨120000, 1, 1, 1, 1, 1⟩) := by
      rw [show (999 : Nat) = 998 + 1 from rfl, mkC_succ]
      rw [show findGap (⟨0, 1, 1, 1, 1, 1⟩ :: ⟨120000, 1, 1, 1, 1, 1⟩
              :: mkC (120000 + 60000) 998)
          = if (⟨120000, 1, 1, 1, 1, 1⟩ : KLine).open_time
                - (⟨0, 1, 1, 1, 1, 1⟩ : KLine).open_time ≠ 60000
            then some ((⟨0, 1, 1, 1, 1, 1⟩ : KLine), (⟨120000, 1, 1, 1, 1, 1⟩ : KLine))
            else findGap (⟨120000, 1, 1, 1, 1, 1⟩ :: mkC (120000 + 60000) 998)
          from rfl]
      rw [if_pos (by norm_num)]
    have := (c2_contiguity_amended "X" (⟨0, 1, 1, 1, 1, 1⟩ :: mkC 120000 999)
      emptyDb dwInit false).2.1 hlen _ _ hgap
    simpa using this

/-- C7 (code bug): when the sled transaction of `insert_block` fails while
persisting a validated full batch, `process_data_chunk` still returns `Ok`
with the store unchanged — the insert `Result` is discarded by the source
(`db.insert_block(...);` with no `?`), so the storage failure is NOT
propagated and the batch is silently dropped. -/
theorem c7_insert_error_swallowed (s : String) (db : Db) (dw : DataWindow) :
    process_data_chunk s (mkC 0 1000) db dw true = .ok (db, dw) :=
  process_full_fail (by rw [mkC_length]; omega) (findGap_mkC 1000 0)

lemma findGap_none_last (data : List KLine) : findGap data = none → data ≠ [] →
    (data.getLast?.getD dfltK).open_time
      = (data.head?.getD dfltK).open_time + 60000 * ((data.length : Int) - 1) := by
  induction data with
  | nil => intro _ h; exact absurd rfl h
  | cons a rest ih =>
    intro hgap _
    cases rest with
    | nil => simp
    | cons b t =>
      have hsplit : b.open_time - a.open_time = 60000 ∧ findGap (b :: t) = none := by
        by_cases hc : b.open_time - a.open_time ≠ 60000
        · rw [show findGap (a :: b :: t)
              = if b.open_time - a.open_time ≠ 60000 then some (a, b)
                else findGap (b :: t) from rfl, if_pos hc] at hgap
          cases hgap
        · rw [show findGap (a :: b :: t)
              = if b.open_time - a.open_time ≠ 60000 then some (a, b)
                else findGap (b :: t) from rfl, if_neg hc] at hgap
          exact ⟨by omega, hgap⟩
      have hih := ih hsplit.2 (by simp)
      have hlast : (a :: b :: t).getLast? = (b :: t).getLast? := by
        simp [List.getLast?_cons_cons]
      rw [hlast, hih]
      simp only [List.head?_cons, Option.getD_some, List.length_cons]
      have := hsplit.1
      push_cast
      ring_nf
      omega

/-- C10: after a committed `insert_block(symbol, t, block)` the
`last_{symbol}` pointer reads back as `t`; the sync path calls it with
`data[0].open_time`, so the pointer denotes the start timestamp of the most
recently persisted block and (for any contiguous block of at least two
candles) never the open time of the block's last candle. -/
theorem c10_last_pointer :
    (∀ (db : Db) (s : String) (t : Int) (data : List KLine) (db' : Db),
        insert_block db s t data false = .ok db' → get_last_timestamp db' s = t)
    ∧ (∀ (s : String) (data : List KLine) (db : Db) (dw : DataWindow),
        ¬ data.length < 1000 → findGap data = none →
        ∃ db', process_data_chunk s data db dw false = .ok (db', dw)
          ∧ get_last_timestamp db' s = (data.head?.getD dfltK).open_time
          ∧ (2 ≤ data.length →
              get_last_timestamp db' s ≠ (data.getLast?.getD dfltK).open_time)) := by
  constructor
  · intro db s t data db' h
    have hdb : db' = dbAfterInsert db s t data := by
      simpa [insert_block] using h.symm
    subst hdb
    simp [get_last_timestamp, dbAfterInsert]
  · intro s data db dw hlen hgap
    refine ⟨dbAfterInsert db s ((data.head?.getD dfltK).open_time) data,
      process_full hlen hgap, ?_, ?_⟩
    · simp [get_last_timestamp, dbAfterInsert]
    · intro h2
      have hne : data ≠ [] := by
        intro h
        rw [h] at h2
        simp at h2
      have hlast := findGap_none_last data hgap hne
      simp only [get_last_timestamp, dbAfterInsert]
      simp only [if_true, Option.getD_some]
      rw [hlast]
      have : (2 : Int) ≤ (data.length : Int) := by exact_mod_cast h2
      intro hcontra
      omega

/-- Concrete instantiation witnessing `c10_last_pointer`. -/
theorem c10_last_pointer_witness :
    (get_last_timestamp (dbAfterInsert emptyDb "X" 5 []) "X" = 5)
    ∧ (∃ db', process_data_chunk "X" (mkC 0 1000) emptyDb dwInit false
          = .ok (db', dwInit)
        ∧ get_last_timestamp db' "X" = ((mkC 0 1000).head?.getD dfltK).open_time
        ∧ (2 ≤ (mkC 0 1000).length →
            get_last_timestamp db' "X" ≠ ((mkC 0 1000).getLast?.getD dfltK).open_time)) :=
  ⟨c10_last_pointer.1 emptyDb "X" 5 [] (dbAfterInsert emptyDb "X" 5 []) rfl,
   c10_last_pointer.2 "X" (mkC 0 1000) emptyDb dwInit
     (by rw [mkC_length]; omega) (findGap_mkC 1000 0)⟩

lemma syncLoop_trace (fetch : Int → Int → List KLine) (txnFail : Int → Bool)
    (s : String) (endT : Int) :
    ∀ (n : Nat) (cur : Int) (db : Db) (dw : DataWindow) (acc : List Int)
      (db' : Db) (dw' : DataWindow) (tr : List Int),
      (endT - cur).toNat ≤ n →
      syncLoop fetch txnFail s endT db dw acc cur = .ok (db', dw', tr) →
      tr = acc ++ reqTimes endT cur := by
  intro n
  induction n with
  | zero =>
    intro cur db dw acc db' dw' tr hn h
    have hstop : ¬ cur < endT := by omega
    rw [syncLoop_stop hstop] at h
    rw [reqTimes_stop hstop]
    cases h
    simp
  | succ n ih =>
    intro cur db dw acc db' dw' tr hn h
    by_cases hc : cur < endT
    · rw [syncLoop_step hc] at h
      rw [reqTimes_step hc]
      cases hp : process_data_chunk s (fetch cur (cur + 60000000)) db dw (txnFail cur) with
      | error e => rw [hp] at h; cases h
      | ok p =>
        rw [hp] at h
        have := ih (cur + 60000000) p.1 p.2 (acc ++ [cur]) db' dw' tr (by omega) (by
          cases p
          exact h)
        rw [this]
        simp
    · rw [syncLoop_stop hc] at h
      rw [reqTimes_stop hc]
      cases h
      simp

lemma reqTimes_lt (endT : Int) :
    ∀ (n : Nat) (cur : Int), (endT - cur).toNat ≤ n →
      ∀ t ∈ reqTimes endT cur, t < endT := by
  intro n
  induction n with
  | zero =>
    intro cur hn t ht
    rw [reqTimes_stop (by omega)] at ht
    cases ht
  | succ n ih =>
    intro cur hn t ht
    by_cases hc : cur < endT
    · rw [reqTimes_step hc] at ht
      cases ht with
      | head => exact hc
      | tail _ htail => exact ih (cur + 60000000) (by omega) t htail
    · rw [reqTimes_stop hc] at ht
      cases ht

/-- C3 counterexample: with the pointer holding 60000000 for symbol "S",
the first (and only) request of a sync to 150000000 starts at
`60000000 + 60_000_000 = 120000000`, not at `60000000 + 60000` as the claim
states. -/
theorem c3_start_offset_counterexample :
    getTrace (sync_data (fun _ _ => []) (fun _ => false)
        ⟨fun _ _ => none, fun s => if s = "S" then some 60000000 else none⟩
        "S" 0 150000000 dwInit)
      = some [120000000]
    ∧ (120000000 : Int) ≠ 60000000 + 60000 := by
  constructor
  · have hlast : get_last_timestamp
        ⟨fun _ _ => none, fun s => if s = "S" then some 60000000 else none⟩ "S"
        = 60000000 := rfl
    have h0 : sync_data (fun _ _ => []) (fun _ => false)
        ⟨fun _ _ => none, fun s => if s = "S" then some 60000000 else none⟩
        "S" 0 150000000 dwInit
        = syncLoop (fun _ _ => []) (fun _ => false) "S" 150000000
            ⟨fun _ _ => none, fun s => if s = "S" then some 60000000 else none⟩
            dwInit [] 120000000 := by
      unfold sync_data
      rw [hlast]
      norm_num
    rw [h0]
    rw [syncLoop_step (by norm_num)]
    rw [process_small (by norm_num)]
    dsimp only
    rw [syncLoop_stop (by norm_num)]
    rfl
  · norm_num

/-- C3 (amended): on a successful sync the requests start at
`last_persisted + 60_000_000` ms (one full 1000-minute block after the
stored block-start pointer) when the pointer is set, at the block-aligned
floor of `start_time` otherwise, and then step by 60_000_000 ms while
remaining strictly below `end_time`. -/
theorem c3_sync_start_amended (fetch : Int → Int → List KLine)
    (txnFail : Int → Bool) (db : Db) (s : String) (startT endT : Int)
    (dw : DataWindow) (db' : Db) (dw' : DataWindow) (tr : List Int)
    (h : sync_data fetch txnFail db s startT endT dw = .ok (db', dw', tr)) :
    tr = reqTimes endT
        (if get_last_timestamp db s = 0 then get_dbtimestamp startT
         else get_last_timestamp db s + 60000000)
    ∧ tr.head? = (if (if get_last_timestamp db s = 0 then get_dbtimestamp startT
         else get_last_timestamp db s + 60000000) < endT
        then some (if get_last_timestamp db s = 0 then get_dbtimestamp startT
         else get_last_timestamp db s + 60000000) else none)
    ∧ ∀ t ∈ tr, t < endT := by
  unfold sync_data at h
  set cur0 := if get_last_timestamp db s = 0 then get_dbtimestamp startT
    else get_last_timestamp db s + 60000000 with hcur0
  have htr : tr = reqTimes endT cur0 :=
    syncLoop_trace fetch txnFail s endT (endT - cur0).toNat cur0 db dw [] db' dw' tr
      le_rfl (by simpa using h)
  refine ⟨htr, ?_, ?_⟩
  · rw [htr]
    by_cases hc : cur0 < endT
    · rw [reqTimes_step hc, if_pos hc]
      rfl
    · rw [reqTimes_stop hc, if_neg hc]
      rfl
  · rw [htr]
    exact reqTimes_lt endT (endT - cur0).toNat cur0 le_rfl

/-- Concrete instantiation witnessing `c3_sync_start_amended`. -/
theorem c3_sync_start_amended_witness :
    ([(120000000 : Int)] = reqTimes 150000000
        (if get_last_timestamp
              ⟨fun _ _ => none, fun s => if s = "S" then some 60000000 else none⟩ "S" = 0
         then get_dbtimestamp 0
         else get_last_timestamp
              ⟨fun _ _ => none, fun s => if s = "S" then some 60000000 else none⟩ "S"
              + 60000000)
    ∧ ([(120000000 : Int)] : List Int).head?
        = (if (if get_last_timestamp
                  ⟨fun _ _ => none, fun s => if s = "S" then some 60000000 else none⟩ "S" = 0
               then get_dbtimestamp 0
               else get_last_timestamp
                  ⟨fun _ _ => none, fun s => if s = "S" then some 60000000 else none⟩ "S"
                  + 60000000) < 150000000
           then some (if get_last_timestamp
                  ⟨fun _ _ => none, fun s => if s = "S" then some 60000000 else none⟩ "S" = 0
               then get_dbtimestamp 0
               else get_last_timestamp
                  ⟨fun _ _ => none, fun s => if s = "S" then some 60000000 else none⟩ "S"
                  + 60000000) else none)
    ∧ ∀ t ∈ ([(120000000 : Int)] : List Int), t < 150000000) := by
  have h : sync_data (fun _ _ => []) (fun _ => false)
      ⟨fun _ _ => none, fun s => if s = "S" then some 60000000 else none⟩
      "S" 0 150000000 dwInit
      = .ok (⟨fun _ _ => none, fun s => if s = "S" then some 60000000 else none⟩,
          { dwInit with recent_data := [] }, [120000000]) := by
    unfold sync_data
    rw [show get_last_timestamp
        ⟨fun _ _ => none, fun s => if s = "S" then some 60000000 else none⟩ "S"
        = 60000000 from rfl]
    norm_num
    rw [syncLoop_step (by norm_num)]
    rw [process_small (by norm_num)]
    dsimp only
    rw [syncLoop_stop (by norm_num)]
    rfl
  exact c3_sync_start_amended (fun _ _ => []) (fun _ => false)
    ⟨fun _ _ => none, fun s => if s = "S" then some 60000000 else none⟩
    "S" 0 150000000 dwInit _ _ _ h

/-- C9: after a first sync whose persisted blocks fully cover the target
range (so the last-timestamp pointer `L` — a block start — satisfies
`end_time ≤ L + 60_000_000`), a second sync over the same `[start_time,
end_time]` issues zero fetch requests and leaves the store and window
untouched: its starting point `L + 60_000_000` is re-derived from the
pointer and already lies at or beyond `end_time`. -/
theorem c9_idempotent_sync (fetch1 fetch2 : Int → Int → List KLine)
    (txnFail1 txnFail2 : Int → Bool) (db0 db1 : Db) (s : String)
    (startT endT : Int) (dw0 dw1 : DataWindow) (tr : List Int)
    (hfirst : sync_data fetch1 txnFail1 db0 s startT endT dw0 = .ok (db1, dw1, tr))
    (hset : get_last_timestamp db1 s ≠ 0)
    (hcover : endT ≤ get_last_timestamp db1 s + 60000000) :
    sync_data fetch2 txnFail2 db1 s startT endT dw1 = .ok (db1, dw1, []) := by
  unfold sync_data
  dsimp only
  rw [if_neg hset]
  exact syncLoop_stop (by omega)

/-- Concrete instantiation witnessing `c9_idempotent_sync`: the pointer
already at 180000000 fully covers `[120000000, 240000000]`, so both the
first and the second sync issue zero requests. -/
theorem c9_idempotent_sync_witness :
    sync_data (fun _ _ => []) (fun _ => false)
        ⟨fun _ _ => none, fun s => if s = "S" then some 180000000 else none⟩
        "S" 120000000 240000000 dwInit
      = .ok (⟨fun _ _ => none, fun s => if s = "S" then some 180000000 else none⟩,
          dwInit, []) := by
  have hfirst : sync_data (fun _ _ => []) (fun _ => false)
      ⟨fun _ _ => none, fun s => if s = "S" then some 180000000 else none⟩
      "S" 120000000 240000000 dwInit
      = .ok (⟨fun _ _ => none, fun s => if s = "S" then some 180000000 else none⟩,
          dwInit, []) := by
    unfold sync_data
    rw [show get_last_timestamp
        ⟨fun _ _ => none, fun s => if s = "S" then some 180000000 else none⟩ "S"
        = 180000000 from rfl]
    norm_num
    exact syncLoop_stop (by norm_num)
  exact c9_idempotent_sync (fun _ _ => []) (fun _ _ => []) (fun _ => false)
    (fun _ => false) _ _ "S" 120000000 240000000 dwInit dwInit [] hfirst
    (by rw [show get_last_timestamp
        ⟨fun _ _ => none, fun s => if s = "S" then some 180000000 else none⟩ "S"
        = 180000000 from rfl]; norm_num)
    (by rw [show get_last_timestamp
        ⟨fun _ _ => none, fun s => if s = "S" then some 180000000 else none⟩ "S"
        = 180000000 from rfl]; norm_num)

/-- The remote data of scenario A: 1500 contiguous block-aligned minute
candles starting at 120000000; each window request returns exactly the
candles available in `[cur, cur + 60_000_000)`. -/
def fetchScenA (cur endArg : Int) : List KLine :=
  if cur = 120000000 then mkC 120000000 1000
  else if cur = 180000000 then mkC 180000000 500
  else []

lemma mkC_head_open (t : Int) (n : Nat) (h : n ≠ 0) :
    ((mkC t n).head?.getD dfltK).open_time = t := by
  cases n with
  | zero => exact absurd rfl h
  | succ m => rw [mkC_succ]; rfl

/-- C4: a validated batch of exactly the block size is handed to the block
store; any shorter batch is stored only in the in-memory recent buffer and
never persisted; and syncing 1500 block-aligned one-minute candles (scenario
A) persists exactly one block of 1000 candles and leaves the remaining 500
candles in the recent buffer. -/
theorem c4_block_routing :
    (∀ (s : String) (data : List KLine) (db : Db) (dw : DataWindow),
        data.length = 1000 → findGap data = none →
        process_data_chunk s data db dw false
          = .ok (dbAfterInsert db s ((data.head?.getD dfltK).open_time) data, dw))
    ∧ (∀ (s : String) (data : List KLine) (db : Db) (dw : DataWindow)
        (txnFail : Bool), data.length < 1000 →
        process_data_chunk s data db dw txnFail
          = .ok (db, { dw with recent_data := data }))
    ∧ (∃ (db1 : Db) (dw1 : DataWindow),
        sync_data fetchScenA (fun _ => false) emptyDb "S" 120000000 210000000 dwInit
          = .ok (db1, dw1, [120000000, 180000000])
        ∧ db1.blocks "S" 120000000 = some (mkC 120000000 1000)
        ∧ (∀ t : Int, t ≠ 120000000 → db1.blocks "S" t = none)
        ∧ dw1.recent_data = mkC 180000000 500
        ∧ (mkC 120000000 1000).length = 1000
        ∧ (mkC 180000000 500).length = 500) := by
  refine ⟨?_, ?_, ?_⟩
  · intro s data db dw hlen hgap
    exact process_full (by omega) hgap
  · intro s data db dw txnFail hlen
    exact process_small hlen
  · refine ⟨dbAfterInsert emptyDb "S" 120000000 (mkC 120000000 1000),
      { dwInit with recent_data := mkC 180000000 500 }, ?_, ?_, ?_, ?_, ?_, ?_⟩
    rotate_left 3
    · rfl
    · exact mkC_length _ _
    · exact mkC_length _ _
    · have hp1 : process_data_chunk "S" (mkC 120000000 1000) emptyDb dwInit false
          = .ok (dbAfterInsert emptyDb "S" 120000000 (mkC 120000000 1000), dwInit) := by
        rw [process_full (by rw [mkC_length]; omega) (findGap_mkC 1000 120000000)]
        rw [mkC_head_open 120000000 1000 (by omega)]
      have hts : get_dbtimestamp 120000000 = 120000000 := by decide
      have h0 : sync_data fetchScenA (fun _ => false) emptyDb "S" 120000000
            210000000 dwInit
          = syncLoop fetchScenA (fun _ => false) "S" 210000000 emptyDb dwInit
              [] 120000000 := by
        unfold sync_data
        dsimp only
        rw [show get_last_timestamp emptyDb "S" = 0 from rfl, if_pos rfl, hts]
      rw [h0]
      rw [syncLoop_step (by norm_num)]
      rw [show fetchScenA 120000000 (120000000 + 60000000) = mkC 120000000 1000
        from by norm_num [fetchScenA]]
      rw [hp1]
      dsimp only
      rw [syncLoop_step (by norm_num)]
      rw [show fetchScenA (120000000 + 60000000) (120000000 + 60000000 + 60000000)
          = mkC 180000000 500 from by norm_num [fetchScenA]]
      rw [process_small (by rw [mkC_length]; omega)]
      dsimp only
      rw [syncLoop_stop (by norm_num)]
      norm_num
    · simp [dbAfterInsert]
    · intro t ht
      simp only [dbAfterInsert]
      rw [if_neg (by rintro ⟨_, h⟩; exact ht h)]
      rfl

/-- Concrete instantiation witnessing `c4_block_routing`. -/
theorem c4_block_routing_witness :
    (process_data_chunk "A" (mkC 0 1000) emptyDb dwInit false
      = .ok (dbAfterInsert emptyDb "A" ((mkC 0 1000).head?.getD dfltK).open_time
          (mkC 0 1000), dwInit))
    ∧ (process_data_chunk "A" (mkC 0 3) emptyDb dwInit false
      = .ok (emptyDb, { dwInit with recent_data := mkC 0 3 })) :=
  ⟨c4_block_routing.1 "A" (mkC 0 1000) emptyDb dwInit (mkC_length 0 1000)
     (findGap_mkC 1000 0),
   c4_block_routing.2.1 "A" (mkC 0 3) emptyDb dwInit false
     (by rw [mkC_length]; omega)⟩

/-- `DataWindow::update_price_range_extrema` (datawindow.rs): early return
when the cached visible range matches; otherwise clamp the range, scan the
pre-sorted index permutations for the first index inside the range, fall
back to a linear scan of the visible slice when either scan fails, apply
the `(min, min + 1)` degenerate adjustment, and cache the range. -/
def update_price_range_extrema (dw : DataWindow) : DataWindow :=
  if dw.cached_visible_range = some dw.visible_range then dw
  else
    let startN : Nat := (max dw.visible_range.1 0).toNat
    let endN : Nat := (min dw.visible_range.2 (dw.bars.length : Int)).toNat
    if endN ≤ startN then
      { dw with price := (0, 1), cached_visible_range := some dw.visible_range }
    else
      let minp := match dw.min_indexes with
        | some idxs =>
            (idxs.find? (fun i => decide (startN ≤ i) && decide (i < endN))).map
              (fun i => (dw.bars.getD i dfltBar).low)
        | none => none
      let maxp := match dw.max_indexes with
        | some idxs =>
            (idxs.find? (fun i => decide (startN ≤ i) && decide (i < endN))).map
              (fun i => (dw.bars.getD i dfltBar).high)
        | none => none
      let sl := (dw.bars.drop startN).take (endN - startN)
      let pair := if minp = none ∨ maxp = none then
          (some (sl.foldl (fun a b => min a b.low) f64Max),
           some (sl.foldl (fun a b => max a b.high) f64Min))
        else (minp, maxp)
      let mn := pair.1.getD 0
      let mx := pair.2.getD 1
      { dw with
        price := if mx ≤ mn then (mn, mn + 1) else (mn, mx),
        cached_visible_range := some dw.visible_range }

/-- The recomputation path of `DataWindow::get_max_volume`. -/
def get_max_volume_compute (dw : DataWindow) : ℚ × DataWindow :=
  let startN : Nat := (max dw.visible_range.1 0).toNat
  let endN : Nat := (min dw.visible_range.2 (dw.bars.length : Int)).toNat
  if endN ≤ startN then (0, { dw with cached_max_volume := some 0 })
  else
    let mv := ((dw.bars.drop startN).take (endN - startN)).foldl
      (fun a b => max a b.volume) 0
    (mv, { dw with cached_max_volume := some mv })

/-- `DataWindow::get_max_volume`: return the cached value when the cached
visible range matches and a cached volume exists; otherwise recompute by a
`fold(0.0, f64::max)` over the visible slice and cache it (note: it does
NOT update `cached_visible_range`). -/
def get_max_volume (dw : DataWindow) : ℚ × DataWindow :=
  match dw.cached_visible_range, dw.cached_max_volume with
  | some cr, some mv =>
      if cr = dw.visible_range then (mv, dw) else get_max_volume_compute dw
  | some _, none => get_max_volume_compute dw
  | none, _ => get_max_volume_compute dw

/-- `DataWindow::build_extrema_indexes`: index permutations of the whole
bar vector sorted by ascending low / descending high.  The source's
`sort_unstable_by` is refined by insertion sort — any sorted permutation
yields the same observable extrema. -/
def build_extrema_indexes (dw : DataWindow) : DataWindow :=
  { dw with
    min_indexes := some (List.insertionSort
      (fun a b => (dw.bars.getD a dfltBar).low ≤ (dw.bars.getD b dfltBar).low)
      (List.range dw.bars.length)),
    max_indexes := some (List.insertionSort
      (fun a b => (dw.bars.getD b dfltBar).high ≤ (dw.bars.getD a dfltBar).high)
      (List.range dw.bars.length)) }

/-- The state-mutation tail of `DataWindow::get_data_window` (lines 87-96):
store the freshly resampled bars, set `visible_range` to the most recent up
to 200 bars, rebuild both extrema index permutations, and refresh the price
extrema cache. -/
def rebuildTail (bars : List Bar) (dw : DataWindow) : DataWindow :=
  let dw1 := { dw with bars := bars }
  let len : Int := bars.length
  let wsize : Int := ((min 200 bars.length : Nat) : Int)
  let dw2 := { dw1 with visible_range := (max (len - wsize) 0, len) }
  update_price_range_extrema (build_extrema_indexes dw2)

/-- Brute-force minimum of a rational list (spec side). -/
def listMin : List ℚ → Option ℚ
  | [] => none
  | x :: xs => some (xs.foldl min x)

/-- Brute-force maximum of a rational list (spec side). -/
def listMax : List ℚ → Option ℚ
  | [] => none
  | x :: xs => some (xs.foldl max x)

/-- The visible bar slice `bars[s..e]`. -/
def sliceOf (bars : List Bar) (s e : Nat) : List Bar :=
  (bars.drop s).take (e - s)

/-- Modelled from the spec: brute-force scan `min of bar.low` over the
visible slice. -/
def bruteMinLow (bars : List Bar) (s e : Nat) : Option ℚ :=
  listMin ((sliceOf bars s e).map (fun b => b.low))

/-- Modelled from the spec: brute-force scan `max of bar.high` over the
visible slice. -/
def bruteMaxHigh (bars : List Bar) (s e : Nat) : Option ℚ :=
  listMax ((sliceOf bars s e).map (fun b => b.high))

/-- Modelled from the spec: brute-force maximum volume over the visible
slice. -/
def bruteMaxVol (bars : List Bar) (s e : Nat) : Option ℚ :=
  listMax ((sliceOf bars s e).map (fun b => b.volume))

lemma foldl_min_le (l : List ℚ) : ∀ a : ℚ,
    l.foldl min a ≤ a ∧ ∀ y ∈ l, l.foldl min a ≤ y := by
  induction l with
  | nil => intro a; exact ⟨le_rfl, by simp⟩
  | cons x xs ih =>
    intro a
    simp only [List.foldl_cons]
    refine ⟨(ih (min a x)).1.trans (min_le_left a x), ?_⟩
    intro y hy
    cases hy with
    | head => exact (ih (min a x)).1.trans (min_le_right a x)
    | tail _ h => exact (ih (min a x)).2 y h

lemma foldl_min_mem (l : List ℚ) : ∀ a : ℚ,
    l.foldl min a = a ∨ l.foldl min a ∈ l := by
  induction l with
  | nil => intro a; exact Or.inl rfl
  | cons x xs ih =>
    intro a
    simp only [List.foldl_cons]
    rcases ih (min a x) with h | h
    · rcases min_choice a x with hc | hc
      · exact Or.inl (h.trans hc)
      · exact Or.inr (by rw [h, hc]; exact List.mem_cons_self x xs)
    · exact Or.inr (List.mem_cons_of_mem x h)

lemma listMin_spec {l : List ℚ} {m : ℚ} (h : listMin l = some m) :
    m ∈ l ∧ ∀ y ∈ l, m ≤ y := by
  cases l with
  | nil => cases h
  | cons x xs =>
    simp only [listMin, Option.some.injEq] at h
    subst h
    constructor
    · rcases foldl_min_mem xs x with h | h
      · rw [h]; exact List.mem_cons_self x xs
      · exact List.mem_cons_of_mem x h
    · intro y hy
      cases hy with
      | head => exact (foldl_min_le xs x).1
      | tail _ hmem => exact (foldl_min_le xs x).2 y hmem

lemma foldl_max_ge (l : List ℚ) : ∀ a : ℚ,
    a ≤ l.foldl max a ∧ ∀ y ∈ l, y ≤ l.foldl max a := by
  induction l with
  | nil => intro a; exact ⟨le_rfl, by simp⟩
  | cons x xs ih =>
    intro a
    simp only [List.foldl_cons]
    refine ⟨(le_max_left a x).trans (ih (max a x)).1, ?_⟩
    intro y hy
    cases hy with
    | head => exact (le_max_right a x).trans (ih (max a x)).1
    | tail _ h => exact (ih (max a x)).2 y h

lemma foldl_max_mem (l : List ℚ) : ∀ a : ℚ,
    l.foldl max a = a ∨ l.foldl max a ∈ l := by
  induction l with
  | nil => intro a; exact Or.inl rfl
  | cons x xs ih =>
    intro a
    simp only [List.foldl_cons]
    rcases ih (max a x) with h | h
    · rcases max_choice a x with hc | hc
      · exact Or.inl (h.trans hc)
      · exact Or.inr (by rw [h, hc]; exact List.mem_cons_self x xs)
    · exact Or.inr (List.mem_cons_of_mem x h)

lemma listMax_spec {l : List ℚ} {m : ℚ} (h : listMax l = some m) :
    m ∈ l ∧ ∀ y ∈ l, y ≤ m := by
  cases l with
  | nil => cases h
  | cons x xs =>
    simp only [listMax, Option.some.injEq] at h
    subst h
    constructor
    · rcases foldl_max_mem xs x with h | h
      · rw [h]; exact List.mem_cons_self x xs
      · exact List.mem_cons_of_mem x h
    · intro y hy
      cases hy with
      | head => exact (foldl_max_ge xs x).1
      | tail _ hmem => exact (foldl_max_ge xs x).2 y hmem

/-- In a list sorted by `r`, the first element satisfying `p` is
`r`-minimal among all elements satisfying `p`. -/
lemma find_sorted_rel {α : Type} {r : α → α → Prop} {p : α → Bool}
    (hrefl : ∀ a, r a a) :
    ∀ {l : List α}, l.Pairwise r → ∀ {j : α}, l.find? p = some j →
      ∀ i ∈ l, p i = true → r j i := by
  intro l
  induction l with
  | nil => intro _ j h; cases h
  | cons x xs ih =>
    intro hpair j hfind i hi hpi
    rcases List.pairwise_cons.mp hpair with ⟨hx, hxs⟩
    by_cases hp : p x = true
    · rw [List.find?_cons_of_pos _ hp] at hfind
      cases hfind
      cases hi with
      | head => exact hrefl x
      | tail _ h => exact hx i h
    · rw [List.find?_cons_of_neg _ (by simpa using hp)] at hfind
      cases hi with
      | head => exact absurd hpi hp
      | tail _ h => exact ih hxs hfind i h hpi

lemma sliceOf_length {bars : List Bar} {s e : Nat} (h2 : s ≤ e)
    (h3 : e ≤ bars.length) : (sliceOf bars s e).length = e - s := by
  unfold sliceOf
  rw [List.length_take, List.length_drop]
  omega

lemma getD_mem_slice {bars : List Bar} {s e i : Nat} (h1 : s ≤ i) (h2 : i < e)
    (h3 : e ≤ bars.length) : bars.getD i dfltBar ∈ sliceOf bars s e := by
  have hib : i < bars.length := by omega
  have hlen : (sliceOf bars s e).length = e - s := sliceOf_length (by omega) h3
  have hj : i - s < (sliceOf bars s e).length := by omega
  have hval : (sliceOf bars s e)[i - s] = bars[i] := by
    unfold sliceOf
    rw [List.getElem_take, List.getElem_drop]
    congr 1
    omega
  rw [List.getD_eq_getElem bars dfltBar hib, ← hval]
  exact List.getElem_mem _

lemma slice_mem_exists {bars : List Bar} {s e : Nat} {y : Bar}
    (hy : y ∈ sliceOf bars s e) (h3 : e ≤ bars.length) :
    ∃ i, s ≤ i ∧ i < e ∧ bars.getD i dfltBar = y := by
  obtain ⟨j, hj, hval⟩ := List.getElem_of_mem hy
  have hjlt : j < e - s := by
    have : (sliceOf bars s e).length ≤ e - s := by
      unfold sliceOf
      rw [List.length_take]
      exact min_le_left _ _
    omega
  have hib : s + j < bars.length := by
    have : (sliceOf bars s e).length ≤ bars.length - s := by
      unfold sliceOf
      rw [List.length_take, List.length_drop]
      exact min_le_right _ _
    omega
  refine ⟨s + j, by omega, by omega, ?_⟩
  rw [List.getD_eq_getElem bars dfltBar hib]
  rw [← hval]
  unfold sliceOf
  rw [List.getElem_take, List.getElem_drop]

lemma update_price_preserves (dw : DataWindow) :
    (update_price_range_extrema dw).bars = dw.bars
    ∧ (update_price_range_extrema dw).visible_range = dw.visible_range
    ∧ (update_price_range_extrema dw).min_indexes = dw.min_indexes
    ∧ (update_price_range_extrema dw).max_indexes = dw.max_indexes
    ∧ (update_price_range_extrema dw).cached_max_volume = dw.cached_max_volume
    ∧ (update_price_range_extrema dw).cached_visible_range
        = some dw.visible_range := by
  unfold update_price_range_extrema
  by_cases h1 : dw.cached_visible_range = some dw.visible_range
  · rw [if_pos h1]
    exact ⟨rfl, rfl, rfl, rfl, rfl, h1⟩
  · rw [if_neg h1]
    by_cases h2 : (min dw.visible_range.2 (dw.bars.length : Int)).toNat
        ≤ (max dw.visible_range.1 0).toNat
    · rw [if_pos h2]
      exact ⟨rfl, rfl, rfl, rfl, rfl, rfl⟩
    · rw [if_neg h2]
      exact ⟨rfl, rfl, rfl, rfl, rfl, rfl⟩

lemma rebuildTail_fields (bars : List Bar) (dw : DataWindow) :
    (rebuildTail bars dw).bars = bars
    ∧ (rebuildTail bars dw).visible_range
        = (max ((bars.length : Int) - ((min 200 bars.length : Nat) : Int)) 0,
           (bars.length : Int))
    ∧ (rebuildTail bars dw).min_indexes
        = some (List.insertionSort
            (fun a b => (bars.getD a dfltBar).low ≤ (bars.getD b dfltBar).low)
            (List.range bars.length))
    ∧ (rebuildTail bars dw).max_indexes
        = some (List.insertionSort
            (fun a b => (bars.getD b dfltBar).high ≤ (bars.getD a dfltBar).high)
            (List.range bars.length))
    ∧ (rebuildTail bars dw).cached_visible_range
        = some (rebuildTail bars dw).visible_range := by
  unfold rebuildTail
  dsimp only
  have h := update_price_preserves (build_extrema_indexes
    { dw with
      bars := bars,
      visible_range :=
        (max ((bars.length : Int) - ((min 200 bars.length : Nat) : Int)) 0,
         (bars.length : Int)) })
  refine ⟨h.1, h.2.1, h.2.2.1, h.2.2.2.1, ?_⟩
  rw [h.2.2.2.2.2, h.2.1]

/-- The scan over the ascending-by-low index permutation finds an index of
the visible range whose bar attains the brute-force minimum low. -/
lemma find_min_index (bars : List Bar) (s e : Nat) (mn : ℚ)
    (hse : s < e) (helen : e ≤ bars.length)
    (hmn : bruteMinLow bars s e = some mn) :
    ∃ j, (List.insertionSort
        (fun a b => (bars.getD a dfltBar).low ≤ (bars.getD b dfltBar).low)
        (List.range bars.length)).find?
          (fun i => decide (s ≤ i) && decide (i < e)) = some j
      ∧ (bars.getD j dfltBar).low = mn := by
  haveI : IsTotal Nat (fun a b =>
      (bars.getD a dfltBar).low ≤ (bars.getD b dfltBar).low) :=
    ⟨fun a b => le_total _ _⟩
  haveI : IsTrans Nat (fun a b =>
      (bars.getD a dfltBar).low ≤ (bars.getD b dfltBar).low) :=
    ⟨fun a b c => le_trans⟩
  have hsorted := List.sorted_insertionSort
    (fun a b => (bars.getD a dfltBar).low ≤ (bars.getD b dfltBar).low)
    (List.range bars.length)
  have hperm := List.perm_insertionSort
    (fun a b => (bars.getD a dfltBar).low ≤ (bars.getD b dfltBar).low)
    (List.range bars.length)
  cases hf : (List.insertionSort
      (fun a b => (bars.getD a dfltBar).low ≤ (bars.getD b dfltBar).low)
      (List.range bars.length)).find?
        (fun i => decide (s ≤ i) && decide (i < e)) with
  | none =>
    exfalso
    have hm : e - 1 ∈ List.insertionSort
        (fun a b => (bars.getD a dfltBar).low ≤ (bars.getD b dfltBar).low)
        (List.range bars.length) :=
      hperm.mem_iff.mpr (List.mem_range.mpr (by omega))
    have := List.find?_eq_none.mp hf (e - 1) hm
    simp at this
    omega
  | some j =>
    refine ⟨j, rfl, ?_⟩
    have hpj := List.find?_some hf
    simp only [Bool.and_eq_true, decide_eq_true_eq] at hpj
    have hmemj := List.mem_of_find?_eq_some hf
    have hminimal := find_sorted_rel
      (r := fun a b => (bars.getD a dfltBar).low ≤ (bars.getD b dfltBar).low)
      (fun a => le_refl _) hsorted hf
    have hspec := listMin_spec (by simpa [bruteMinLow] using hmn)
    have h1 : mn ≤ (bars.getD j dfltBar).low :=
      hspec.2 _ (List.mem_map_of_mem _ (getD_mem_slice hpj.1 hpj.2 helen))
    obtain ⟨b, hb, hbl⟩ := List.mem_map.mp hspec.1
    obtain ⟨i, hi1, hi2, hi3⟩ := slice_mem_exists hb helen
    have hiidx : i ∈ List.insertionSort
        (fun a b => (bars.getD a dfltBar).low ≤ (bars.getD b dfltBar).low)
        (List.range bars.length) :=
      hperm.mem_iff.mpr (List.mem_range.mpr (by omega))
    have h2 : (bars.getD j dfltBar).low ≤ (bars.getD i dfltBar).low :=
      hminimal i hiidx (by
        simp only [Bool.and_eq_true, decide_eq_true_eq]
        exact ⟨hi1, hi2⟩)
    have h3 : (bars.getD i dfltBar).low = mn := by rw [hi3, hbl]
    exact le_antisymm (h3 ▸ h2) h1

/-- The scan over the descending-by-high index permutation finds an index of
the visible range whose bar attains the brute-force maximum high. -/
lemma find_max_index (bars : List Bar) (s e : Nat) (mx : ℚ)
    (hse : s < e) (helen : e ≤ bars.length)
    (hmx : bruteMaxHigh bars s e = some mx) :
    ∃ j, (List.insertionSort
        (fun a b => (bars.getD b dfltBar).high ≤ (bars.getD a dfltBar).high)
        (List.range bars.length)).find?
          (fun i => decide (s ≤ i) && decide (i < e)) = some j
      ∧ (bars.getD j dfltBar).high = mx := by
  haveI : IsTotal Nat (fun a b =>
      (bars.getD b dfltBar).high ≤ (bars.getD a dfltBar).high) :=
    ⟨fun a b => le_total _ _⟩
  haveI : IsTrans Nat (fun a b =>
      (bars.getD b dfltBar).high ≤ (bars.getD a dfltBar).high) :=
    ⟨fun a b c hab hbc => le_trans hbc hab⟩
  have hsorted := List.sorted_insertionSort
    (fun a b => (bars.getD b dfltBar).high ≤ (bars.getD a dfltBar).high)
    (List.range bars.length)
  have hperm := List.perm_insertionSort
    (fun a b => (bars.getD b dfltBar).high ≤ (bars.getD a dfltBar).high)
    (List.range bars.length)
  cases hf : (List.insertionSort
      (fun a b => (bars.getD b dfltBar).high ≤ (bars.getD a dfltBar).high)
      (List.range bars.length)).find?
        (fun i => decide (s ≤ i) && decide (i < e)) with
  | none =>
    exfalso
    have hm : e - 1 ∈ List.insertionSort
        (fun a b => (bars.getD b dfltBar).high ≤ (bars.getD a dfltBar).high)
        (List.range bars.length) :=
      hperm.mem_iff.mpr (List.mem_range.mpr (by omega))
    have := List.find?_eq_none.mp hf (e - 1) hm
    simp at this
    omega
  | some j =>
    refine ⟨j, rfl, ?_⟩
    have hpj := List.find?_some hf
    simp only [Bool.and_eq_true, decide_eq_true_eq] at hpj
    have hmemj := List.mem_of_find?_eq_some hf
    have hmaximal := find_sorted_rel
      (r := fun a b => (bars.getD b dfltBar).high ≤ (bars.getD a dfltBar).high)
      (fun a => le_refl _) hsorted hf
    have hspec := listMax_spec (by simpa [bruteMaxHigh] using hmx)
    have h1 : (bars.getD j dfltBar).high ≤ mx :=
      hspec.2 _ (List.mem_map_of_mem _ (getD_mem_slice hpj.1 hpj.2 helen))
    obtain ⟨b, hb, hbl⟩ := List.mem_map.mp hspec.1
    obtain ⟨i, hi1, hi2, hi3⟩ := slice_mem_exists hb helen
    have hiidx : i ∈ List.insertionSort
        (fun a b => (bars.getD b dfltBar).high ≤ (bars.getD a dfltBar).high)
        (List.range bars.length) :=
      hperm.mem_iff.mpr (List.mem_range.mpr (by omega))
    have h2 : (bars.getD i dfltBar).high ≤ (bars.getD j dfltBar).high :=
      hmaximal i hiidx (by
        simp only [Bool.and_eq_true, decide_eq_true_eq]
        exact ⟨hi1, hi2⟩)
    have h3 : (bars.getD i dfltBar).high = mx := by rw [hi3, hbl]
    exact le_antisymm h1 (h3 ▸ h2)

lemma update_price_compute (dw : DataWindow) (s e : Nat) (mn mx : ℚ)
    (hvr : dw.visible_range = ((s : Int), (e : Int)))
    (hcache : dw.cached_visible_range ≠ some dw.visible_range)
    (hse : s < e) (helen : e ≤ dw.bars.length)
    (hmin : dw.min_indexes = some (List.insertionSort
        (fun a b => (dw.bars.getD a dfltBar).low ≤ (dw.bars.getD b dfltBar).low)
        (List.range dw.bars.length)))
    (hmax : dw.max_indexes = some (List.insertionSort
        (fun a b => (dw.bars.getD b dfltBar).high ≤ (dw.bars.getD a dfltBar).high)
        (List.range dw.bars.length)))
    (hmn : bruteMinLow dw.bars s e = some mn)
    (hmx : bruteMaxHigh dw.bars s e = some mx)
    (hlt : mn < mx) :
    (update_price_range_extrema dw).price = (mn, mx) := by
  obtain ⟨j, hj, hjval⟩ := find_min_index dw.bars s e mn hse helen hmn
  obtain ⟨j', hj', hjval'⟩ := find_max_index dw.bars s e mx hse helen hmx
  have hsN : (max dw.visible_range.1 0).toNat = s := by
    rw [hvr]; dsimp only; omega
  have heN : (min dw.visible_range.2 (dw.bars.length : Int)).toNat = e := by
    rw [hvr]; dsimp only; omega
  unfold update_price_range_extrema
  rw [if_neg hcache]
  dsimp only
  rw [hsN, heN]
  rw [if_neg (show ¬ (e ≤ s) by omega)]
  rw [hmin, hmax]
  dsimp only
  rw [hj, hj']
  dsimp only [Option.map_some']
  have hpair : ¬(some ((dw.bars.getD j dfltBar).low) = none
      ∨ some ((dw.bars.getD j' dfltBar).high) = none) := by simp
  rw [if_neg hpair]
  dsimp only
  rw [Option.getD_some, Option.getD_some]
  rw [hjval, hjval']
  rw [if_neg (not_le.mpr hlt)]

lemma slice_subset {bars : List Bar} {s e : Nat} {b : Bar}
    (h : b ∈ sliceOf bars s e) : b ∈ bars := by
  unfold sliceOf at h
  exact List.mem_of_mem_drop (List.mem_of_mem_take h)

lemma get_max_volume_correct (dw : DataWindow) (s e : Nat) (mv : ℚ)
    (hvr : dw.visible_range = ((s : Int), (e : Int)))
    (hcache : dw.cached_visible_range ≠ some dw.visible_range)
    (hse : s < e) (helen : e ≤ dw.bars.length)
    (hvol : ∀ b ∈ dw.bars, 0 ≤ b.volume)
    (hmv : bruteMaxVol dw.bars s e = some mv) :
    (get_max_volume dw).1 = mv := by
  have hcompute : get_max_volume dw = get_max_volume_compute dw := by
    unfold get_max_volume
    cases hcv : dw.cached_visible_range with
    | none => cases dw.cached_max_volume <;> rfl
    | some cr =>
      cases dw.cached_max_volume with
      | none => rfl
      | some mv0 =>
        dsimp only
        rw [if_neg (show ¬ (cr = dw.visible_range) from
          fun hcr => hcache (by rw [hcv, hcr]))]
  rw [hcompute]
  have hsN : (max dw.visible_range.1 0).toNat = s := by
    rw [hvr]; dsimp only; omega
  have heN : (min dw.visible_range.2 (dw.bars.length : Int)).toNat = e := by
    rw [hvr]; dsimp only; omega
  unfold get_max_volume_compute
  dsimp only
  rw [hsN, heN]
  rw [if_neg (show ¬ (e ≤ s) by omega)]
  dsimp only
  have hfold : ((dw.bars.drop s).take (e - s)).foldl (fun a b => max a b.volume) 0
      = ((sliceOf dw.bars s e).map (fun b => b.volume)).foldl max 0 := by
    rw [List.foldl_map]
    rfl
  rw [hfold]
  have hspec := listMax_spec (by simpa [bruteMaxVol] using hmv)
  have hge := foldl_max_ge ((sliceOf dw.bars s e).map (fun b => b.volume)) 0
  have hmvle : mv ≤ ((sliceOf dw.bars s e).map (fun b => b.volume)).foldl max 0 :=
    hge.2 mv hspec.1
  rcases foldl_max_mem ((sliceOf dw.bars s e).map (fun b => b.volume)) 0 with h0 | hmem
  · obtain ⟨b, hb, hbv⟩ := List.mem_map.mp hspec.1
    have hnn : 0 ≤ mv := hbv ▸ hvol b (slice_subset hb)
    rw [h0] at hmvle ⊢
    linarith
  · exact le_antisymm (hspec.2 _ hmem) hmvle

/-- C6 counterexample: a full rebuild does not invalidate
`cached_visible_range`.  Rebuilding with one bar (low 1, high 2), then
rebuilding with a different single bar (low 1, high 3), leaves
`visible_range = (0, 1)` equal to the stale cached range, so
`update_price_range_extrema` early-returns and `price` stays `(1, 2)` —
not the brute-force `(1, 3)` of the current visible bars. -/
theorem c6_stale_cache_counterexample :
    (update_price_range_extrema
        (rebuildTail [⟨0, 1, 3, 1, 1, 7⟩]
          (rebuildTail [⟨0, 1, 2, 1, 1, 5⟩] dwInit))).price = (1, 2)
    ∧ bruteMinLow [⟨0, 1, 3, 1, 1, 7⟩] 0 1 = some 1
    ∧ bruteMaxHigh [⟨0, 1, 3, 1, 1, 7⟩] 0 1 = some 3
    ∧ ((1 : ℚ), (2 : ℚ)) ≠ ((1 : ℚ), (3 : ℚ)) := by decide

/-- C6 (amended): after a full rebuild, for every visible range that
differs from the rebuild's own (cached) visible range — i.e. whenever the
stale cache cannot answer — the range queries equal brute-force scans of
the visible bar slice: `update_price_range_extrema` sets `price` to
exactly (min low, max high) of the visible bars provided min low < max
high, and `get_max_volume` returns exactly their maximum volume provided
volumes are non-negative.  When the queried range coincides with the stale
cached range, stale cached values are served instead (see the
counterexample). -/
theorem c6_extrema_amended (dw0 : DataWindow) (bs : List Bar) (s e : Nat)
    (mn mx mv : ℚ)
    (hse : s < e) (helen : e ≤ bs.length)
    (hnew : ((s : Int), (e : Int)) ≠ (rebuildTail bs dw0).visible_range)
    (hmn : bruteMinLow bs s e = some mn)
    (hmx : bruteMaxHigh bs s e = some mx)
    (hlt : mn < mx)
    (hvol : ∀ b ∈ bs, 0 ≤ b.volume)
    (hmv : bruteMaxVol bs s e = some mv) :
    (update_price_range_extrema
        { rebuildTail bs dw0 with visible_range := ((s : Int), (e : Int)) }).price
      = (mn, mx)
    ∧ (get_max_volume
        { rebuildTail bs dw0 with visible_range := ((s : Int), (e : Int)) }).1
      = mv := by
  have hf := rebuildTail_fields bs dw0
  set dw2 : DataWindow :=
    { rebuildTail bs dw0 with visible_range := ((s : Int), (e : Int)) } with hdw2
  have hbars : dw2.bars = bs := hf.1
  have hvr : dw2.visible_range = ((s : Int), (e : Int)) := rfl
  have hcache : dw2.cached_visible_range ≠ some dw2.visible_range := by
    rw [show dw2.cached_visible_range
        = (rebuildTail bs dw0).cached_visible_range from rfl]
    rw [hf.2.2.2.2, hvr]
    intro hcontra
    injection hcontra with h
    exact hnew h.symm
  constructor
  · refine update_price_compute dw2 s e mn mx hvr hcache hse
      (by rw [hbars]; exact helen) ?_ ?_
      (by rw [hbars]; exact hmn) (by rw [hbars]; exact hmx) hlt
    · rw [show dw2.min_indexes = (rebuildTail bs dw0).min_indexes from rfl,
        hf.2.2.1, hbars]
    · rw [show dw2.max_indexes = (rebuildTail bs dw0).max_indexes from rfl,
        hf.2.2.2.1, hbars]
  · exact get_max_volume_correct dw2 s e mv hvr hcache hse
      (by rw [hbars]; exact helen) (by rw [hbars]; exact hvol)
      (by rw [hbars]; exact hmv)

/-- Concrete instantiation witnessing `c6_extrema_amended`. -/
theorem c6_extrema_amended_witness :
    (update_price_range_extrema
        { rebuildTail [⟨0, 1, 2, 1, 1, 3⟩, ⟨0, 1, 5, 0, 1, 4⟩] dwInit with
          visible_range := (((0 : Nat) : Int), ((1 : Nat) : Int)) }).price = (1, 2)
    ∧ (get_max_volume
        { rebuildTail [⟨0, 1, 2, 1, 1, 3⟩, ⟨0, 1, 5, 0, 1, 4⟩] dwInit with
          visible_range := (((0 : Nat) : Int), ((1 : Nat) : Int)) }).1 = 3 :=
  c6_extrema_amended dwInit [⟨0, 1, 2, 1, 1, 3⟩, ⟨0, 1, 5, 0, 1, 4⟩] 0 1 1 2 3
    (by decide) (by decide) (by decide) (by decide) (by decide) (by decide)
    (by decide) (by decide)

/-- `InteractiveGui::zoom` (interactivegui.rs).  `zin` is `amount > 0.0`;
`z` models `(range as f64 * ZOOM_SENSITIVITY).max(1.0) as i64`, which is
always at least 1 (theorems take `1 ≤ z` as a hypothesis and quantify over
`z`).  Mutation order follows the source: zoom-in updates `start_idx`
first and uses it for `end_idx`; the final clamp applies `.min(len)` and
then `.max(start_idx + 2)`. -/
def zoom (zin : Bool) (z : Int) (vr : Int × Int) (len : Int) : Int × Int :=
  if len = 0 ∨ vr.2 ≤ vr.1 then vr
  else
    let se := if zin then
        let s1 := min (vr.1 + z) (vr.2 - 2)
        let e1 := min (max (vr.2 - z) (s1 + 2)) len
        (s1, e1)
      else (max (vr.1 - z) 0, min (vr.2 + z) len)
    let s2 := max se.1 0
    let e2 := max (min se.2 len) (s2 + 2)
    (s2, e2)

/-- C8 counterexample: with a single bar (`len = 1`) and the valid visible
range `(0, 1)`, one zoom-in step (the source computes `zoom = 1` for
`range = 1`) yields `(0, 2)`, violating `end ≤ len(bars)`. -/
theorem c8_len_one_counterexample :
    zoom true 1 (0, 1) 1 = (0, 2) ∧ ¬ ((2 : Int) ≤ 1) := by decide

/-- C8 (amended): the rebuild tail always establishes
`0 ≤ start ≤ end ≤ len(bars)`, and `zoom` preserves the bounds from any
state satisfying them whenever `len ≠ 1`; at `len = 1` the final
two-bar-minimum clamp can push `end` to `2 > len` (see the
counterexample). -/
theorem c8_bounds_amended :
    (∀ (bars : List Bar) (dw : DataWindow),
        0 ≤ (rebuildTail bars dw).visible_range.1
        ∧ (rebuildTail bars dw).visible_range.1
            ≤ (rebuildTail bars dw).visible_range.2
        ∧ (rebuildTail bars dw).visible_range.2 ≤ (bars.length : Int))
    ∧ (∀ (zin : Bool) (z s e len : Int), 1 ≤ z → len ≠ 1 →
        0 ≤ s → s ≤ e → e ≤ len →
        0 ≤ (zoom zin z (s, e) len).1
        ∧ (zoom zin z (s, e) len).1 ≤ (zoom zin z (s, e) len).2
        ∧ (zoom zin z (s, e) len).2 ≤ len) := by
  constructor
  · intro bars dw
    have hf := (rebuildTail_fields bars dw).2.1
    rw [hf]
    dsimp only
    have h1 : ((min 200 bars.length : Nat) : Int) ≤ (bars.length : Int) := by
      have : (min 200 bars.length : Nat) ≤ bars.length := min_le_right _ _
      exact_mod_cast this
    have h2 : (0 : Int) ≤ (bars.length : Int) := by positivity
    refine ⟨le_max_right _ _, ?_, le_refl _⟩
    rw [max_le_iff]
    omega
  · intro zin z s e len hz hlen1 h0 hse helen
    unfold zoom
    by_cases hguard : len = 0 ∨ e ≤ s
    · rw [if_pos (by simpa using hguard)]
      dsimp only
      rcases hguard with h | h
      · subst h
        refine ⟨h0, hse, helen⟩
      · refine ⟨h0, hse, helen⟩
    · rw [if_neg (by simpa using hguard)]
      push_neg at hguard
      obtain ⟨hlen0, hselt⟩ := hguard
      have hlen2 : 2 ≤ len := by omega
      cases zin with
      | true =>
        rw [if_pos rfl]
        dsimp only
        refine ⟨?_, ?_, ?_⟩ <;> omega
      | false =>
        rw [if_neg (by simp)]
        dsimp only
        refine ⟨?_, ?_, ?_⟩ <;> omega

/-- Concrete instantiation witnessing `c8_bounds_amended`. -/
theorem c8_bounds_amended_witness :
    0 ≤ (zoom true 1 (0, 5) 5).1
    ∧ (zoom true 1 (0, 5) 5).1 ≤ (zoom true 1 (0, 5) 5).2
    ∧ (zoom true 1 (0, 5) 5).2 ≤ 5 :=
  c8_bounds_amended.2 true 1 0 5 5 (by decide) (by decide) (by decide)
    (by decide) (by decide)
